import Mathlib

/-
Verification development for the offline Pwned Passwords lookup engine
(package pwnedpass, file offline.go).

The database file is modelled as a read-only random-access byte view
(`ReaderAt`), matching the repository's `readCloserAt` interface backed by
`mmap.ReaderAt`.  Machine bytes are `Nat` reduced mod 256, Go `int64`
values are `Int`, and the unsigned-to-signed cast of `binary.BigEndian.Uint64`
is `toInt64`.  The two loops of the source (the binary search inside
`Pwned` and the outer loop of `Scan`) are modelled with explicit fuel so
that non-termination is observable as fuel exhaustion (`none`).
-/

/-- Big-endian interpretation of a byte list, as used by
`binary.BigEndian.Uint16`, `Uint32` and `Uint64` in the source. -/
def beBytesToNat (bs : List Nat) : Nat :=
  bs.foldl (fun acc b => acc * 256 + b) 0

/-- Reduction of a caller-supplied byte list modulo 256; this models the Go
type `[]byte`, whose elements are uint8 by construction. -/
def byteNorm (bs : List Nat) : List Nat :=
  bs.map (fun b => b % 256)

/-- Lexicographic byte-list comparison, modelling `bytes.Compare`:
`lt` stands for the result -1, `gt` for 1 and `eq` for 0. -/
def bytesCompare : List Nat → List Nat → Ordering
  | [], [] => .eq
  | [], _ :: _ => .lt
  | _ :: _, [] => .gt
  | a :: as, b :: bs =>
    if a < b then .lt else if b < a then .gt else bytesCompare as bs

/-- Big-endian 3-byte encoding of a 24-bit number, as produced by
`binary.BigEndian.PutUint32` followed by taking bytes 1 to 3. -/
def natToBytes3 (n : Nat) : List Nat :=
  [n / 2 ^ 16 % 256, n / 2 ^ 8 % 256, n % 256]

/-- Cast of an unsigned 64-bit value to Go `int64`, as in
`int64(binary.BigEndian.Uint64(...))`. -/
def toInt64 (n : Nat) : Int :=
  if n % 2 ^ 64 < 2 ^ 63 then ((n % 2 ^ 64 : Nat) : Int)
  else ((n % 2 ^ 64 : Nat) : Int) - 2 ^ 64

/-- Overwrite of `src.length` bytes of `dst` starting at position `start`,
modelling `copy(dst[start:start+len(src)], src)` on a slice whose backing
array is `dst` (callers establish `start + src.length ≤ dst.length`). -/
def writeBytes (dst : List Nat) (start : Nat) (src : List Nat) : List Nat :=
  dst.take start ++ src ++ dst.drop (start + src.length)

/-- Read-only random-access byte view; models the `readCloserAt` interface
of the source (`io.ReaderAt` with `Len`), whose live implementation is
`mmap.ReaderAt`.  `byte i` is the file byte at offset `i`. -/
structure ReaderAt where
  len : Nat
  byte : Nat → Nat

/-- Byte at offset `i`, reduced mod 256 to reflect the Go `byte` type. -/
def ReaderAt.byteAt (v : ReaderAt) (i : Nat) : Nat :=
  v.byte i % 256

/-- Full read of `n` bytes at signed offset `off`, modelling
`mmap.ReaderAt.ReadAt` with an `n`-byte destination slice: the call yields
a nil error exactly when the whole destination is filled, i.e. when
`0 ≤ off` and `off + n ≤ len` (short reads yield `io.EOF`, negative or
too-large offsets an invalid-offset error; both are `none` here). -/
def ReaderAt.readAt (v : ReaderAt) (off : Int) (n : Nat) : Option (List Nat) :=
  if 0 ≤ off ∧ off.toNat + n ≤ v.len then
    some ((List.range n).map (fun i => v.byteAt (off.toNat + i)))
  else none

/-- IndexSegmentSize, the exact byte size of the index segment:
`256 << 16 << 3` in the source, which is 2 to the 27th. -/
def IndexSegmentSize : Nat := 256 <<< 16 <<< 3

/-- DataSegmentOffset, the byte offset of the data segment. -/
def DataSegmentOffset : Nat := IndexSegmentSize

/-- Model of `OfflineDatabase.lookup`: maps a 3-byte hash prefix to the
`(location, length)` of its bucket inside the data segment.  `none` models
a non-nil error from `ReadAt`.  The numeric index is obtained exactly as in
the source: the three bytes are placed in bytes 1 to 3 of a zeroed 4-byte
buffer and decoded big-endian. -/
def lookup (v : ReaderAt) (pre : List Nat) : Option (Int × Int) :=
  let pIdx : Nat := beBytesToNat (0 :: pre)
  if pre = [255, 255, 255] then
    match v.readAt (8 * (pIdx : Int)) 8 with
    | none => none
    | some b8 =>
      let loc : Int := toInt64 (beBytesToNat b8)
      some (loc, (v.len : Int) - (IndexSegmentSize : Int) - loc)
  else
    match v.readAt (8 * (pIdx : Int)) 16 with
    | none => none
    | some b16 =>
      let loc : Int := toInt64 (beBytesToNat (b16.take 8))
      let nextLoc : Int := toInt64 (beBytesToNat (b16.drop 8))
      some (loc, nextLoc - loc)

/-- Result of `Pwned`: a read error, or a returned frequency (`ok 0` is the
not-found answer, returned with a nil error). -/
inductive PwnedRes
  | ioError
  | ok (freq : Nat)
deriving DecidableEq

/-- Binary-search loop of `Pwned`, with explicit fuel: one unit of fuel per
probe, `none` meaning the loop has not returned within the given number of
probes.  `start` is the bucket location from `lookup`, `sfx` the 17-byte
query suffix `hash[3:20]`.  Exactly as in the source, the update rule is
`hi = test` / `lo = test` and the `hi - lo == 1` test runs after the
compare-and-assign. -/
def pwnedLoop (v : ReaderAt) (start : Int) (sfx : List Nat) :
    Nat → Int → Int → Option PwnedRes
  | 0, _, _ => none
  | fuel + 1, lo, hi =>
    let test : Int := lo + (hi - lo).tdiv 2
    match v.readAt ((DataSegmentOffset : Int) + start + test * 19) 19 with
    | none => some .ioError
    | some rbuf =>
      match bytesCompare sfx (rbuf.take 17) with
      | .eq => some (.ok (beBytesToNat (rbuf.drop 17)))
      | .lt =>
        if test - lo = 1 then some (.ok 0)
        else pwnedLoop v start sfx fuel lo test
      | .gt =>
        if hi - test = 1 then some (.ok 0)
        else pwnedLoop v start sfx fuel test hi

/-- Model of `OfflineDatabase.Pwned`: index lookup for the first three hash
bytes, then the binary search over the bucket with `lo, hi = 0, length/19`.
`fuel` bounds the number of probes of the search loop. -/
def pwned (v : ReaderAt) (hash : List Nat) (fuel : Nat) : Option PwnedRes :=
  let h := byteNorm hash
  match lookup v (h.take 3) with
  | none => some .ioError
  | some (start, length) =>
    pwnedLoop v start (h.drop 3) fuel 0 (length.tdiv 19)

/-- Outcome of a `Scan` call: a runtime slice-bounds failure, a non-nil
read error, the invalid-range error, or a nil return. -/
inductive ScanOutcome
  | panicked
  | ioError
  | invalidRange
  | okDone
deriving DecidableEq

/-- Result of `Scan`: the sequence of callback invocations, each recording
the 20-byte hash slice contents and the frequency passed, plus the
outcome. -/
structure ScanResult where
  visits : List (List Nat × Nat)
  outcome : ScanOutcome
deriving DecidableEq

/-- Outcome of the inner record loop of `Scan` over one bucket. -/
inductive StepRes
  | panicked
  | stopped
  | done
deriving DecidableEq

/-- Inner record loop of `Scan`: walks the bucket buffer in 19-byte
strides, writing `hash[3:20]` from the record suffix, decoding the
big-endian frequency, and invoking the callback.  `count` is the number of
remaining iterations (`ceil(length/19)` at entry), `off` the current byte
offset.  Slice expressions that would exceed the 8192-byte pooled buffer,
or a `hash` slice of capacity below 20, are Go runtime panics.  Bytes of
the pooled buffer beyond the bytes just read (reachable only when the
bucket length is not a multiple of 19) are modelled as 0. -/
def recLoop (buffer : List Nat) (cb : List Nat → Nat → Bool) :
    Nat → Nat → List Nat → List (List Nat × Nat) →
    List Nat × List (List Nat × Nat) × StepRes
  | 0, _, hash, acc => (hash, acc, .done)
  | count + 1, off, hash, acc =>
    if hash.length < 20 then (hash, acc, .panicked)
    else if 8192 < off + 17 then (hash, acc, .panicked)
    else
      let sfx := (List.range 17).map (fun t => buffer.getD (off + t) 0)
      let hash' := writeBytes hash 3 sfx
      if 8192 < off + 19 then (hash', acc, .panicked)
      else
        let freq := 256 * buffer.getD (off + 17) 0 + buffer.getD (off + 18) 0
        let acc' := acc ++ [(hash', freq)]
        if cb hash' freq then (hash', acc', .stopped)
        else recLoop buffer cb count (off + 19) hash' acc'

/-- Outer loop of `Scan`, one fuel unit per prefix iteration (`none` is
fuel exhaustion; the loop provably runs at most 2^24 + 2 iterations).
`cur` is `currentPrefix` (a uint32); the 3-byte `shortPrefix` it carries is
`cur % 2^24` re-encoded.  Faithful to the source: index lookup, the
`buffer[0:length]` slice (panic when `length` is negative or above the
8192-byte pooled buffer), one bulk `ReadAt`, the record loop, the
inclusive end-prefix test, prefix advancement, and the `> 256<<16`
overflow guard. -/
def scanLoop (v : ReaderAt) (endP : Nat) (cb : List Nat → Nat → Bool) :
    Nat → Nat → List Nat → List (List Nat × Nat) → Option ScanResult
  | 0, _, _, _ => none
  | fuel + 1, cur, hash, acc =>
    let short := cur % 2 ^ 24
    match lookup v (natToBytes3 short) with
    | none => some ⟨acc, .ioError⟩
    | some (start, length) =>
      if length < 0 ∨ 8192 < length then some ⟨acc, .panicked⟩
      else
        match v.readAt ((DataSegmentOffset : Int) + start) length.toNat with
        | none => some ⟨acc, .ioError⟩
        | some buffer =>
          match recLoop buffer cb ((length.toNat + 18) / 19) 0 hash acc with
          | (_, acc', .panicked) => some ⟨acc', .panicked⟩
          | (_, acc', .stopped) => some ⟨acc', .okDone⟩
          | (hash', acc', .done) =>
            if short = endP then some ⟨acc', .okDone⟩
            else
              let cur' := (cur + 1) % 2 ^ 32
              let hash'' := writeBytes hash' 0 (natToBytes3 (cur' % 2 ^ 24))
              if 2 ^ 24 < cur' then some ⟨acc', .okDone⟩
              else scanLoop v endP cb fuel cur' hash'' acc'

/-- Model of `OfflineDatabase.Scan`.  `startPre`/`endPre` are the 3-byte
bounds, `hash0` the caller-supplied hash slice (its length models both the
length and capacity of the Go slice), `cb` the callback (which observes
the shared hash slice and the frequency).  Per the source: the range check
comes first, then `copy(hash[0:3], startPrefix[0:3])` (a panic when the
slice cannot hold 3 bytes), then the prefix loop. -/
def scan (v : ReaderAt) (startPre endPre : List Nat) (hash0 : List Nat)
    (cb : List Nat → Nat → Bool) : Option ScanResult :=
  let sB := byteNorm startPre
  let eB := byteNorm endPre
  if bytesCompare sB eB = .gt then some ⟨[], .invalidRange⟩
  else if hash0.length < 3 then some ⟨[], .panicked⟩
  else
    let cur := beBytesToNat (0 :: sB)
    let hash1 := writeBytes (byteNorm hash0) 0 sB
    scanLoop v (beBytesToNat (0 :: eB)) cb (2 ^ 24 + 2) cur hash1 []

/-- Model of `isHashPrefix`: length must be exactly 5 and every byte must
be an ASCII uppercase letter, lowercase letter, or digit. -/
def isHashPre (s : List Nat) : Bool :=
  s.length = 5 &&
    s.all (fun c =>
      (65 ≤ c && c ≤ 90) || (97 ≤ c && c ≤ 122) || (48 ≤ c && c ≤ 57))

/-- Value of an ASCII hex digit, as in `encoding/hex`. -/
def fromHexChar (c : Nat) : Option Nat :=
  if 48 ≤ c ∧ c ≤ 57 then some (c - 48)
  else if 97 ≤ c ∧ c ≤ 102 then some (c - 87)
  else if 65 ≤ c ∧ c ≤ 70 then some (c - 55)
  else none

/-- Best-effort pairwise hex decoding: models `hex.Decode`, which writes
decoded bytes until the first invalid character and then reports an error
(which the `/range/` handler ignores). -/
def hexDecodePairs : List Nat → List Nat
  | a :: b :: rest =>
    match fromHexChar a, fromHexChar b with
    | some x, some y => (16 * x + y) :: hexDecodePairs rest
    | _, _ => []
  | _ => []

/-- Decode into a zero-initialized 3-byte array, as the handler's
`var start, end [3]byte` plus `hex.Decode(start[:], ...)` with the error
discarded: bytes past the first invalid character stay 0. -/
def hexDecode3 (src : List Nat) : List Nat :=
  (hexDecodePairs src ++ [0, 0, 0]).take 3

/-- Observable decision of the `/range/{value}` branch of `ServeHTTP`:
either a 400 response with no scan, or a scan over the computed bounds. -/
inductive RangeOutcome
  | badRequest
  | scanned (startB endB : List Nat)
deriving DecidableEq

/-- Model of the `/range/` branch of `ServeHTTP`: validate with
`isHashPrefix`, answer 400 on failure, otherwise scan the range obtained
by decoding the value extended with '0' (48) and with 'F' (70). -/
def serveRange (p : List Nat) : RangeOutcome :=
  if !isHashPre p then .badRequest
  else .scanned (hexDecode3 (p ++ [48])) (hexDecode3 (p ++ [70]))

/-- Index entry for a 24-bit numeric hash prefix `p`: the 8 bytes at
absolute file offset `8 * p`, decoded big-endian. -/
def idxEntry (v : ReaderAt) (p : Nat) : Nat :=
  beBytesToNat ((List.range 8).map (fun i => v.byteAt (8 * p + i)))

/-- End offset of bucket `p` inside the data segment: the next index
entry, or the data segment size for the last prefix. -/
def nextEntry (v : ReaderAt) (p : Nat) : Nat :=
  if p = 2 ^ 24 - 1 then v.len - IndexSegmentSize else idxEntry v (p + 1)

/-- Well-formedness of one bucket, the per-prefix part of section 3's
database invariants plus the 8 KiB scan-buffer bound: entries
non-decreasing, bucket inside the data segment, length a multiple of 19
and at most 8192. -/
def bucketOk (v : ReaderAt) (p : Nat) : Prop :=
  idxEntry v p ≤ nextEntry v p ∧
  nextEntry v p ≤ v.len - IndexSegmentSize ∧
  19 ∣ (nextEntry v p - idxEntry v p) ∧
  nextEntry v p - idxEntry v p ≤ 8192

instance (v : ReaderAt) (p : Nat) : Decidable (bucketOk v p) := by
  unfold bucketOk; infer_instance

/-- Number of records in bucket `p`. -/
def bucketN (v : ReaderAt) (p : Nat) : Nat :=
  (nextEntry v p - idxEntry v p) / 19

/-- Suffix of record `i` of the bucket at data-segment offset `off`:
17 bytes starting at file offset `2^27 + off + 19*i`. -/
def recSuffix (v : ReaderAt) (off i : Nat) : List Nat :=
  (List.range 17).map (fun t => v.byteAt (2 ^ 27 + off + (19 * i + t)))

/-- Frequency of record `i` of the bucket at data-segment offset `off`:
big-endian 16-bit value of record bytes 17 and 18. -/
def recFreq (v : ReaderAt) (off i : Nat) : Nat :=
  256 * v.byteAt (2 ^ 27 + off + (19 * i + 17)) +
    v.byteAt (2 ^ 27 + off + (19 * i + 18))

/-- The `m` records stored in the bucket at data-segment offset `off`. -/
def bucketRecs (v : ReaderAt) (off m : Nat) : List (List Nat × Nat) :=
  (List.range m).map (fun i => (recSuffix v off i, recFreq v off i))

/-- Strict ascending order of the suffixes within bucket `p`
(section 3's third invariant). -/
def bucketSorted (v : ReaderAt) (p : Nat) : Prop :=
  List.Pairwise (fun a b => bytesCompare a.1 b.1 = .lt)
    (bucketRecs v (idxEntry v p) (bucketN v p))

instance (v : ReaderAt) (p : Nat) : Decidable (bucketSorted v p) := by
  unfold bucketSorted; exact List.instDecidablePairwise _

/-- Records of bucket `p` tagged with their full 20-byte hash
`prefix || suffix`. -/
def taggedBucket (v : ReaderAt) (p : Nat) : List (List Nat × Nat) :=
  (bucketRecs v (idxEntry v p) (bucketN v p)).map
    (fun r => (natToBytes3 p ++ r.1, r.2))

/-- Tagged records of the `n` consecutive buckets starting at prefix `s`. -/
def rangeTaggedN (v : ReaderAt) (s : Nat) : Nat → List (List Nat × Nat)
  | 0 => []
  | n + 1 => taggedBucket v s ++ rangeTaggedN v (s + 1) n

/-- Tagged records of all buckets with prefix in `[s, e]`. -/
def rangeTagged (v : ReaderAt) (s e : Nat) : List (List Nat × Nat) :=
  rangeTaggedN v s (e + 1 - s)

/-- Visits produced by a callback-driven walk of a record list: every
record up to and including the first one on which the callback fires,
together with a flag telling whether it fired. -/
def takeToStop (cb : List Nat → Nat → Bool) :
    List (List Nat × Nat) → List (List Nat × Nat) × Bool
  | [] => ([], false)
  | x :: xs =>
    if cb x.1 x.2 then ([x], true)
    else
      let r := takeToStop cb xs
      (x :: r.1, r.2)

/-- Index decoder modelled on the wording of spec section 4.2: read the
8-byte big-endian entry at absolute offset `8 * u24(prefix)`; for the last
prefix the length is `view.len - 2^27 - offset`, otherwise read the next
8-byte entry and subtract.  For comparison with `lookup`. -/
def lookupRef (v : ReaderAt) (pre : List Nat) : Option (Int × Int) :=
  let pIdx : Nat := beBytesToNat (0 :: pre)
  match v.readAt (8 * (pIdx : Int)) 8 with
  | none => none
  | some b8 =>
    let off : Int := toInt64 (beBytesToNat b8)
    if pre = [255, 255, 255] then
      some (off, (v.len : Int) - 2 ^ 27 - off)
    else
      match v.readAt (8 * (pIdx : Int) + 8) 8 with
      | none => none
      | some b8' => some (off, toInt64 (beBytesToNat b8') - off)

/-- Byte function of a tiny synthesized database whose bucket 0 holds the
records listed in `data` (so index entry 0 is 0 and every later entry is
`data.length`). -/
def oneBucketByte (data : List Nat) (i : Nat) : Nat :=
  if i < 2 ^ 27 then
    if i < 8 then 0
    else if i % 8 = 7 then data.length % 256
    else if i % 8 = 6 then data.length / 256 % 256
    else 0
  else data.getD (i - 2 ^ 27) 0

/-- Database with every index entry 0 and an empty data segment: the
spec's empty-database scenario. -/
def dbEmpty : ReaderAt :=
  ⟨2 ^ 27, fun _ => 0⟩

/-- Bucket-0 record bytes of `db1`: one record, suffix seventeen 0x01
bytes, frequency 7. -/
def db1data : List Nat :=
  [1, 1, 1, 1, 1, 1, 1, 1, 1, 1, 1, 1, 1, 1, 1, 1, 1, 0, 7]

/-- Well-formed database with a single one-record bucket at prefix 0. -/
def db1 : ReaderAt :=
  ⟨2 ^ 27 + 19, oneBucketByte db1data⟩

/-- Bucket-0 record bytes of `db2`: suffix of seventeen 0x00 bytes with
frequency 5, then suffix of seventeen 0x01 bytes with frequency 7. -/
def db2data : List Nat :=
  [0, 0, 0, 0, 0, 0, 0, 0, 0, 0, 0, 0, 0, 0, 0, 0, 0, 0, 5,
   1, 1, 1, 1, 1, 1, 1, 1, 1, 1, 1, 1, 1, 1, 1, 1, 1, 0, 7]

/-- Well-formed database with a single two-record bucket at prefix 0. -/
def db2 : ReaderAt :=
  ⟨2 ^ 27 + 38, oneBucketByte db2data⟩

/-- Database whose bucket 0 is 8208 bytes long (432 records), larger than
the 8192-byte pooled scan buffer; its data bytes are all zero. -/
def dbBig : ReaderAt :=
  ⟨2 ^ 27 + 8208,
    fun i =>
      if i < 2 ^ 27 then
        if i < 8 then 0
        else if i % 8 = 7 then 16
        else if i % 8 = 6 then 32
        else 0
      else 0⟩

/-- The 20-byte hash `000000 || 00...00`, the first record of `db2`. -/
def hashZero : List Nat :=
  [0, 0, 0, 0, 0, 0, 0, 0, 0, 0, 0, 0, 0, 0, 0, 0, 0, 0, 0, 0]

/-- The 20-byte hash `000000 || 01...01`, the single record of `db1` and
the second record of `db2`. -/
def hashOnes : List Nat :=
  [0, 0, 0, 1, 1, 1, 1, 1, 1, 1, 1, 1, 1, 1, 1, 1, 1, 1, 1, 1]

/-- Database whose bucket 0 is empty while bucket 1 holds the single
record `suffix 01...01, frequency 7` (index entries: 0, 0, then 19
everywhere after). -/
def dbShift : ReaderAt :=
  ⟨2 ^ 27 + 19,
    fun i =>
      if i < 2 ^ 27 then
        if i < 16 then 0 else if i % 8 = 7 then 19 else 0
      else db1data.getD (i - 2 ^ 27) 0⟩

lemma beBytesToNat_cons (b : Nat) (bs : List Nat) :
    beBytesToNat (b :: bs) = b * 256 ^ bs.length + beBytesToNat bs := by
  suffices h : ∀ (l : List Nat) (acc : Nat),
      l.foldl (fun a x => a * 256 + x) acc =
        acc * 256 ^ l.length + l.foldl (fun a x => a * 256 + x) 0 by
    simpa [beBytesToNat] using h bs b
  intro l
  induction l with
  | nil => simp
  | cons x xs ih =>
    intro acc
    simp only [List.foldl_cons, List.length_cons, zero_mul, zero_add]
    rw [ih (acc * 256 + x), ih x]
    ring

lemma beBytesToNat_lt (l : List Nat) (h : ∀ x ∈ l, x < 256) :
    beBytesToNat l < 256 ^ l.length := by
  induction l with
  | nil => simp [beBytesToNat]
  | cons b bs ih =>
    rw [beBytesToNat_cons]
    have hb : b < 256 := h b (by simp)
    have hbs : beBytesToNat bs < 256 ^ bs.length :=
      ih (fun x hx => h x (by simp [hx]))
    calc b * 256 ^ bs.length + beBytesToNat bs
        < b * 256 ^ bs.length + 256 ^ bs.length := by omega
      _ = (b + 1) * 256 ^ bs.length := by ring
      _ ≤ 256 * 256 ^ bs.length := by
          exact Nat.mul_le_mul_right _ (by omega)
      _ = 256 ^ (bs.length + 1) := by ring
      _ = 256 ^ (b :: bs).length := by simp

lemma beBytesToNat_zero_cons (l : List Nat) :
    beBytesToNat (0 :: l) = beBytesToNat l := by
  rw [beBytesToNat_cons]; simp

lemma natToBytes3_length (n : Nat) : (natToBytes3 n).length = 3 := rfl

lemma natToBytes3_mem_lt (n : Nat) : ∀ x ∈ natToBytes3 n, x < 256 := by
  intro x hx
  have h256 : (0 : Nat) < 256 := by norm_num
  simp only [natToBytes3, List.mem_cons, List.not_mem_nil, or_false] at hx
  rcases hx with h | h | h <;> subst h <;> exact Nat.mod_lt _ h256

lemma beBytes_natToBytes3 (n : Nat) (h : n < 2 ^ 24) :
    beBytesToNat (natToBytes3 n) = n := by
  simp only [natToBytes3, beBytesToNat, List.foldl_cons, List.foldl_nil]
  omega

lemma byteNorm_natToBytes3 (n : Nat) :
    byteNorm (natToBytes3 n) = natToBytes3 n := by
  simp only [byteNorm, natToBytes3, List.map_cons, List.map_nil,
    List.cons.injEq, and_true]
  exact ⟨by omega, by omega, by omega⟩

lemma natToBytes3_inj (p q : Nat) (hp : p < 2 ^ 24) (hq : q < 2 ^ 24)
    (h : natToBytes3 p = natToBytes3 q) : p = q := by
  have := congrArg beBytesToNat h
  rwa [beBytes_natToBytes3 p hp, beBytes_natToBytes3 q hq] at this

lemma bytesCompare_eq_compare (a b : List Nat) (hlen : a.length = b.length)
    (ha : ∀ x ∈ a, x < 256) (hb : ∀ x ∈ b, x < 256) :
    bytesCompare a b = compare (beBytesToNat a) (beBytesToNat b) := by
  induction a generalizing b with
  | nil =>
    cases b with
    | nil => simp [bytesCompare, beBytesToNat]; decide
    | cons y ys => simp at hlen
  | cons x xs ih =>
    cases b with
    | nil => simp at hlen
    | cons y ys =>
      simp only [List.length_cons, Nat.succ_inj'] at hlen
      have hx : x < 256 := ha x (by simp)
      have hy : y < 256 := hb y (by simp)
      have hxs : beBytesToNat xs < 256 ^ xs.length :=
        beBytesToNat_lt xs (fun t ht => ha t (by simp [ht]))
      have hys : beBytesToNat ys < 256 ^ ys.length :=
        beBytesToNat_lt ys (fun t ht => hb t (by simp [ht]))
      rw [beBytesToNat_cons, beBytesToNat_cons]
      simp only [bytesCompare]
      by_cases hlt : x < y
      · rw [if_pos hlt]
        have : x * 256 ^ xs.length + beBytesToNat xs <
            y * 256 ^ ys.length + beBytesToNat ys := by
          calc x * 256 ^ xs.length + beBytesToNat xs
              < (x + 1) * 256 ^ xs.length := by
                have := hxs; ring_nf; omega
            _ ≤ y * 256 ^ xs.length := Nat.mul_le_mul_right _ (by omega)
            _ = y * 256 ^ ys.length := by rw [hlen]
            _ ≤ y * 256 ^ ys.length + beBytesToNat ys := Nat.le_add_right _ _
        rw [Nat.compare_eq_lt.mpr this]
      · rw [if_neg hlt]
        by_cases hgt : y < x
        · rw [if_pos hgt]
          have : y * 256 ^ ys.length + beBytesToNat ys <
              x * 256 ^ xs.length + beBytesToNat xs := by
            calc y * 256 ^ ys.length + beBytesToNat ys
                < (y + 1) * 256 ^ ys.length := by
                  have := hys; ring_nf; omega
              _ ≤ x * 256 ^ ys.length := Nat.mul_le_mul_right _ (by omega)
              _ = x * 256 ^ xs.length := by rw [hlen]
              _ ≤ x * 256 ^ xs.length + beBytesToNat xs := Nat.le_add_right _ _
          rw [Nat.compare_eq_gt.mpr this]
        · have hxy : x = y := by omega
          subst hxy
          rw [if_neg hgt]
          rw [ih ys hlen (fun t ht => ha t (by simp [ht]))
            (fun t ht => hb t (by simp [ht]))]
          rw [hlen]
          rcases Nat.lt_trichotomy (beBytesToNat xs) (beBytesToNat ys) with h | h | h
          · rw [Nat.compare_eq_lt.mpr h, Nat.compare_eq_lt.mpr (by omega)]
          · rw [h, Nat.compare_eq_eq.mpr rfl, Nat.compare_eq_eq.mpr rfl]
          · rw [Nat.compare_eq_gt.mpr h, Nat.compare_eq_gt.mpr (by omega)]

lemma bytesCompare_append (a b x y : List Nat) (hlen : a.length = b.length) :
    bytesCompare (a ++ x) (b ++ y) =
      ((bytesCompare a b).then (bytesCompare x y)) := by
  induction a generalizing b with
  | nil =>
    cases b with
    | nil => simp [bytesCompare, Ordering.then]
    | cons q qs => simp at hlen
  | cons p ps ih =>
    cases b with
    | nil => simp at hlen
    | cons q qs =>
      simp only [List.length_cons, Nat.succ_inj'] at hlen
      simp only [List.cons_append, bytesCompare]
      by_cases h1 : p < q
      · simp [h1, Ordering.then]
      · by_cases h2 : q < p
        · simp [h1, h2, Ordering.then]
        · simp only [if_neg h1, if_neg h2]
          exact ih qs hlen

lemma natToBytes3_compare (p q : Nat) (hp : p < 2 ^ 24) (hq : q < 2 ^ 24) :
    bytesCompare (natToBytes3 p) (natToBytes3 q) = compare p q := by
  rw [bytesCompare_eq_compare _ _ (by simp [natToBytes3_length])
    (natToBytes3_mem_lt p) (natToBytes3_mem_lt q),
    beBytes_natToBytes3 p hp, beBytes_natToBytes3 q hq]

lemma toInt64_small (n : Nat) (h : n < 2 ^ 63) : toInt64 n = (n : Int) := by
  unfold toInt64
  have h64 : n % 2 ^ 64 = n := Nat.mod_eq_of_lt (by omega)
  rw [h64, if_pos (by omega)]

lemma writeBytes_length (dst : List Nat) (start : Nat) (src : List Nat)
    (h : start + src.length ≤ dst.length) :
    (writeBytes dst start src).length = dst.length := by
  simp only [writeBytes, List.length_append, List.length_take, List.length_drop]
  omega

lemma writeBytes_zero (dst src : List Nat) :
    writeBytes dst 0 src = src ++ dst.drop src.length := by
  simp [writeBytes]

lemma writeBytes_take3 (dst src : List Nat) (h3 : src.length = 3) :
    (writeBytes dst 0 src).take 3 = src := by
  rw [writeBytes_zero, ← h3, List.take_left]

lemma writeBytes_sfx (hash sfx : List Nat) (hh : hash.length = 20)
    (hs : sfx.length = 17) : writeBytes hash 3 sfx = hash.take 3 ++ sfx := by
  have : hash.drop (3 + sfx.length) = [] := by
    apply List.drop_eq_nil_of_le; omega
  simp [writeBytes, this]

lemma readAt_nat (v : ReaderAt) (off n : Nat) :
    v.readAt ((off : Nat) : Int) n =
      if off + n ≤ v.len then
        some ((List.range n).map (fun i => v.byteAt (off + i)))
      else none := by
  simp [ReaderAt.readAt]

lemma getD_range_map (L k : Nat) (f : Nat → Nat) (h : k < L) :
    ((List.range L).map f).getD k 0 = f k := by
  simp [List.getD_eq_getElem?_getD, List.getElem?_map, List.getElem?_range, h]

lemma takeToStop_cons_true (cb : List Nat → Nat → Bool) (x : List Nat × Nat)
    (l : List (List Nat × Nat)) (h : cb x.1 x.2 = true) :
    takeToStop cb (x :: l) = ([x], true) := by
  simp [takeToStop, h]

lemma takeToStop_cons_false (cb : List Nat → Nat → Bool) (x : List Nat × Nat)
    (l : List (List Nat × Nat)) (h : cb x.1 x.2 = false) :
    takeToStop cb (x :: l) =
      (x :: (takeToStop cb l).1, (takeToStop cb l).2) := by
  simp [takeToStop, h]

lemma takeToStop_nostop (cb : List Nat → Nat → Bool)
    (l : List (List Nat × Nat)) (h : ∀ x ∈ l, cb x.1 x.2 = false) :
    takeToStop cb l = (l, false) := by
  induction l with
  | nil => rfl
  | cons x xs ih =>
    rw [takeToStop_cons_false cb x xs (h x (by simp)),
      ih (fun y hy => h y (by simp [hy]))]

lemma takeToStop_append_true (cb : List Nat → Nat → Bool)
    (l₁ l₂ : List (List Nat × Nat)) (h : (takeToStop cb l₁).2 = true) :
    takeToStop cb (l₁ ++ l₂) = takeToStop cb l₁ := by
  induction l₁ with
  | nil => exact absurd h (by rw [show takeToStop cb [] = ([], false) from rfl]; simp)
  | cons x xs ih =>
    rcases Bool.eq_false_or_eq_true (cb x.1 x.2) with hx | hx
    · rw [List.cons_append, takeToStop_cons_true cb x _ hx,
        takeToStop_cons_true cb x xs hx]
    · rw [takeToStop_cons_false cb x xs hx] at h
      rw [List.cons_append, takeToStop_cons_false cb x _ hx,
        takeToStop_cons_false cb x xs hx, ih h]

lemma takeToStop_append_false (cb : List Nat → Nat → Bool)
    (l₁ l₂ : List (List Nat × Nat)) (h : (takeToStop cb l₁).2 = false) :
    takeToStop cb (l₁ ++ l₂) =
      (l₁ ++ (takeToStop cb l₂).1, (takeToStop cb l₂).2) := by
  induction l₁ with
  | nil => simp
  | cons x xs ih =>
    rcases Bool.eq_false_or_eq_true (cb x.1 x.2) with hx | hx
    · rw [takeToStop_cons_true cb x xs hx] at h
      simp at h
    · rw [takeToStop_cons_false cb x xs hx] at h
      rw [List.cons_append, takeToStop_cons_false cb x _ hx, ih h]
      simp

lemma takeToStop_fire (cb : List Nat → Nat → Bool)
    (l₁ : List (List Nat × Nat)) (x : List Nat × Nat)
    (l₂ : List (List Nat × Nat)) (h1 : ∀ y ∈ l₁, cb y.1 y.2 = false)
    (hx : cb x.1 x.2 = true) :
    takeToStop cb (l₁ ++ x :: l₂) = (l₁ ++ [x], true) := by
  rw [takeToStop_append_false cb l₁ (x :: l₂)
    (by rw [takeToStop_nostop cb l₁ h1])]
  simp [takeToStop, hx, takeToStop_nostop cb l₁ h1]

lemma rangeTagged_step (v : ReaderAt) (p e : Nat) (h : p ≤ e) :
    rangeTagged v p e = taggedBucket v p ++ rangeTagged v (p + 1) e := by
  unfold rangeTagged
  have he : e + 1 - p = (e + 1 - (p + 1)) + 1 := by omega
  rw [he]
  rfl

lemma rangeTagged_last (v : ReaderAt) (e : Nat) :
    rangeTagged v e e = taggedBucket v e := by
  unfold rangeTagged
  have he : e + 1 - e = 1 := by omega
  rw [he]
  simp [rangeTaggedN]

lemma mem_rangeTaggedN (v : ReaderAt) (s n : Nat) (x : List Nat × Nat)
    (hx : x ∈ rangeTaggedN v s n) :
    ∃ q, s ≤ q ∧ q < s + n ∧ x ∈ taggedBucket v q := by
  induction n generalizing s with
  | zero => simp [rangeTaggedN] at hx
  | succ n ih =>
    simp only [rangeTaggedN, List.mem_append] at hx
    rcases hx with hx | hx
    · exact ⟨s, le_refl s, by omega, hx⟩
    · obtain ⟨q, h1, h2, h3⟩ := ih (s + 1) hx
      exact ⟨q, by omega, by omega, h3⟩

lemma IndexSegmentSize_eq : IndexSegmentSize = 2 ^ 27 := by decide

lemma natToBytes3_eq_ff (p : Nat) (hp : p < 2 ^ 24) :
    natToBytes3 p = [255, 255, 255] ↔ p = 2 ^ 24 - 1 := by
  constructor
  · intro h
    have h1 := congrArg beBytesToNat h
    rw [beBytes_natToBytes3 p hp] at h1
    rw [h1]
    decide
  · intro h
    subst h
    decide

lemma range16_take (f : Nat → Nat) :
    ((List.range 16).map f).take 8 = (List.range 8).map f := rfl

lemma range16_drop (f : Nat → Nat) :
    ((List.range 16).map f).drop 8 =
      (List.range 8).map (fun i => f (8 + i)) := rfl

lemma lookup_eq (v : ReaderAt) (p : Nat) (hp : p < 2 ^ 24)
    (hlen : 2 ^ 27 ≤ v.len) (hbig : v.len < 2 ^ 63)
    (hmono : idxEntry v p ≤ nextEntry v p)
    (hub : nextEntry v p ≤ v.len - 2 ^ 27) :
    lookup v (natToBytes3 p) =
      some ((idxEntry v p : Int), ((nextEntry v p - idxEntry v p : Nat) : Int)) := by
  have hIdxVal : beBytesToNat (0 :: natToBytes3 p) = p := by
    rw [beBytesToNat_zero_cons, beBytes_natToBytes3 p hp]
  have hEntry63 : idxEntry v p < 2 ^ 63 := by omega
  have hNext63 : nextEntry v p < 2 ^ 63 := by omega
  have hcast : (8 : Int) * ((beBytesToNat (0 :: natToBytes3 p) : Nat) : Int)
      = ((8 * p : Nat) : Int) := by
    rw [hIdxVal]; push_cast; ring
  by_cases hP : p = 2 ^ 24 - 1
  · have hff : natToBytes3 p = [255, 255, 255] := (natToBytes3_eq_ff p hp).mpr hP
    have hbound : 8 * p + 8 ≤ v.len := by omega
    have hread : v.readAt ((8 : Int) * ((beBytesToNat (0 :: natToBytes3 p) : Nat) : Int)) 8
        = some ((List.range 8).map (fun i => v.byteAt (8 * p + i))) := by
      rw [hcast, readAt_nat, if_pos hbound]
    have hnext : nextEntry v p = v.len - 2 ^ 27 := by
      unfold nextEntry
      rw [if_pos hP, IndexSegmentSize_eq]
    have hloc : toInt64 (beBytesToNat ((List.range 8).map (fun i => v.byteAt (8 * p + i))))
        = ((idxEntry v p : Nat) : Int) := by
      rw [show beBytesToNat ((List.range 8).map (fun i => v.byteAt (8 * p + i)))
          = idxEntry v p from rfl]
      exact toInt64_small _ hEntry63
    rw [show lookup v (natToBytes3 p)
        = (match v.readAt ((8 : Int) * ((beBytesToNat (0 :: natToBytes3 p) : Nat) : Int)) 8 with
          | none => none
          | some b8 =>
            some (toInt64 (beBytesToNat b8),
              (v.len : Int) - (IndexSegmentSize : Int) - toInt64 (beBytesToNat b8)))
        from by rw [lookup, if_pos hff]]
    rw [hread]
    simp only [hloc, IndexSegmentSize_eq]
    rw [hnext]
    congr 1
    congr 1
    push_cast [Nat.sub_sub]
    omega
  · have hff : ¬natToBytes3 p = [255, 255, 255] := fun h =>
      hP ((natToBytes3_eq_ff p hp).mp h)
    have hple : p ≤ 2 ^ 24 - 2 := by omega
    have hbound : 8 * p + 16 ≤ v.len := by omega
    have hread : v.readAt ((8 : Int) * ((beBytesToNat (0 :: natToBytes3 p) : Nat) : Int)) 16
        = some ((List.range 16).map (fun i => v.byteAt (8 * p + i))) := by
      rw [hcast, readAt_nat, if_pos hbound]
    have hnext : nextEntry v p = idxEntry v (p + 1) := by
      unfold nextEntry
      rw [if_neg hP]
    have hloc : toInt64 (beBytesToNat (((List.range 16).map (fun i => v.byteAt (8 * p + i))).take 8))
        = ((idxEntry v p : Nat) : Int) := by
      rw [range16_take]
      rw [show beBytesToNat ((List.range 8).map (fun i => v.byteAt (8 * p + i)))
          = idxEntry v p from rfl]
      exact toInt64_small _ hEntry63
    have hdropEq : ((List.range 16).map (fun i => v.byteAt (8 * p + i))).drop 8
        = (List.range 8).map (fun i => v.byteAt (8 * (p + 1) + i)) := by
      rw [range16_drop]
      apply List.map_congr_left
      intro i _
      congr 1
      ring
    have hnloc : toInt64 (beBytesToNat (((List.range 16).map (fun i => v.byteAt (8 * p + i))).drop 8))
        = ((idxEntry v (p + 1) : Nat) : Int) := by
      rw [hdropEq]
      rw [show beBytesToNat ((List.range 8).map (fun i => v.byteAt (8 * (p + 1) + i)))
          = idxEntry v (p + 1) from rfl]
      exact toInt64_small _ (by omega : idxEntry v (p + 1) < 2 ^ 63)
    rw [show lookup v (natToBytes3 p)
        = (match v.readAt ((8 : Int) * ((beBytesToNat (0 :: natToBytes3 p) : Nat) : Int)) 16 with
          | none => none
          | some b16 =>
            some (toInt64 (beBytesToNat (b16.take 8)),
              toInt64 (beBytesToNat (b16.drop 8)) - toInt64 (beBytesToNat (b16.take 8))))
        from by rw [lookup, if_neg hff]]
    rw [hread]
    simp only [hloc, hnloc]
    congr 1
    congr 1
    rw [← hnext]
    omega

lemma bucketRecs_length (v : ReaderAt) (off m : Nat) :
    (bucketRecs v off m).length = m := by
  simp [bucketRecs]

lemma recSuffix_length (v : ReaderAt) (off j : Nat) :
    (recSuffix v off j).length = 17 := by
  simp [recSuffix]

lemma recLoop_spec (v : ReaderAt) (off m : Nat)
    (cb : List Nat → Nat → Bool) (pB : List Nat) (hm : 19 * m ≤ 8192) :
    ∀ k j hash acc, j + k = m → hash.length = 20 → hash.take 3 = pB →
      ∃ hash',
        recLoop ((List.range (19 * m)).map (fun i => v.byteAt (2 ^ 27 + off + i)))
            cb k (19 * j) hash acc =
          (hash',
            acc ++ (takeToStop cb
              (((bucketRecs v off m).drop j).map (fun r => (pB ++ r.1, r.2)))).1,
            if (takeToStop cb
              (((bucketRecs v off m).drop j).map (fun r => (pB ++ r.1, r.2)))).2
            then StepRes.stopped else StepRes.done) ∧
        hash'.length = 20 ∧ hash'.take 3 = pB := by
  intro k
  induction k with
  | zero =>
    intro j hash acc hjk hh hp3
    have hj : m = j := by omega
    subst hj
    have hdrop : (bucketRecs v off m).drop m = [] := by
      apply List.drop_eq_nil_of_le
      rw [bucketRecs_length]
    refine ⟨hash, ?_, hh, hp3⟩
    rw [show recLoop ((List.range (19 * m)).map (fun i => v.byteAt (2 ^ 27 + off + i)))
        cb 0 (19 * m) hash acc = (hash, acc, .done) from rfl]
    rw [hdrop]
    simp [takeToStop]
  | succ k ih =>
    intro j hash acc hjk hh hp3
    have hj : j < m := by omega
    have hpBlen : pB.length = 3 := by
      rw [← hp3]
      simp [hh]
    have hdrop : (bucketRecs v off m).drop j =
        (recSuffix v off j, recFreq v off j) :: (bucketRecs v off m).drop (j + 1) := by
      rw [List.drop_eq_getElem_cons (by rw [bucketRecs_length]; omega)]
      congr 1
      simp [bucketRecs]
    have hsfx : (List.range 17).map
        (fun t => (((List.range (19 * m)).map
          (fun i => v.byteAt (2 ^ 27 + off + i))).getD (19 * j + t) 0)) =
        recSuffix v off j := by
      apply List.map_congr_left
      intro t ht
      rw [List.mem_range] at ht
      rw [getD_range_map (19 * m) (19 * j + t) _ (by omega)]
    have hwb : writeBytes hash 3 (recSuffix v off j) =
        hash.take 3 ++ recSuffix v off j :=
      writeBytes_sfx hash _ hh (recSuffix_length v off j)
    have hh' : (hash.take 3 ++ recSuffix v off j).length = 20 := by
      simp [recSuffix_length, List.length_take, hh]
    have hp3' : (hash.take 3 ++ recSuffix v off j).take 3 = pB := by
      rw [hp3, ← hpBlen, List.take_left]
    have hfreq : 256 * (((List.range (19 * m)).map
          (fun i => v.byteAt (2 ^ 27 + off + i))).getD (19 * j + 17) 0) +
        (((List.range (19 * m)).map
          (fun i => v.byteAt (2 ^ 27 + off + i))).getD (19 * j + 18) 0) =
        recFreq v off j := by
      rw [getD_range_map (19 * m) (19 * j + 17) _ (by omega),
        getD_range_map (19 * m) (19 * j + 18) _ (by omega)]
      rfl
    rw [show recLoop ((List.range (19 * m)).map (fun i => v.byteAt (2 ^ 27 + off + i)))
        cb (k + 1) (19 * j) hash acc =
        (if hash.length < 20 then (hash, acc, .panicked)
        else if 8192 < 19 * j + 17 then (hash, acc, .panicked)
        else
          let sfx := (List.range 17).map
            (fun t => ((List.range (19 * m)).map
              (fun i => v.byteAt (2 ^ 27 + off + i))).getD (19 * j + t) 0)
          let hash' := writeBytes hash 3 sfx
          if 8192 < 19 * j + 19 then (hash', acc, .panicked)
          else
            let freq := 256 * (((List.range (19 * m)).map
              (fun i => v.byteAt (2 ^ 27 + off + i))).getD (19 * j + 17) 0) +
              (((List.range (19 * m)).map
              (fun i => v.byteAt (2 ^ 27 + off + i))).getD (19 * j + 18) 0)
            let acc' := acc ++ [(hash', freq)]
            if cb hash' freq then (hash', acc', .stopped)
            else recLoop ((List.range (19 * m)).map
              (fun i => v.byteAt (2 ^ 27 + off + i))) cb k (19 * j + 19) hash' acc')
        from rfl]
    rw [if_neg (by omega : ¬hash.length < 20),
      if_neg (by omega : ¬8192 < 19 * j + 17)]
    simp only [hsfx, hwb, hfreq]
    rw [if_neg (by omega : ¬8192 < 19 * j + 19)]
    rw [hdrop]
    simp only [List.map_cons]
    rw [hp3]
    have hh2 : (pB ++ recSuffix v off j).length = 20 := by
      simp [hpBlen, recSuffix_length]
    have hp32 : (pB ++ recSuffix v off j).take 3 = pB := by
      have h0 := List.take_left pB (recSuffix v off j)
      rwa [hpBlen] at h0
    rcases Bool.eq_false_or_eq_true (cb (pB ++ recSuffix v off j) (recFreq v off j)) with hcb | hcb
    · -- callback fires: stop with exactly this visit
      have ht := takeToStop_cons_true cb (pB ++ recSuffix v off j, recFreq v off j)
        ((List.map (fun r => (pB ++ r.1, r.2)) ((bucketRecs v off m).drop (j + 1)))) hcb
      rw [hcb]
      simp only [ht]
      refine ⟨pB ++ recSuffix v off j, ?_, hh2, hp32⟩
      simp
    · have ht := takeToStop_cons_false cb (pB ++ recSuffix v off j, recFreq v off j)
        ((List.map (fun r => (pB ++ r.1, r.2)) ((bucketRecs v off m).drop (j + 1)))) hcb
      rw [hcb]
      simp only [ht]
      have hstep : 19 * j + 19 = 19 * (j + 1) := by ring
      rw [hstep]
      obtain ⟨hash', heq, hlen', hp3''⟩ :=
        ih (j + 1) (pB ++ recSuffix v off j)
          (acc ++ [(pB ++ recSuffix v off j, recFreq v off j)])
          (by omega) hh2 hp32
      rw [heq]
      exact ⟨hash', by simp, hlen', hp3''⟩

lemma takeToStop_false_fst (cb : List Nat → Nat → Bool)
    (l : List (List Nat × Nat)) (h : (takeToStop cb l).2 = false) :
    (takeToStop cb l).1 = l := by
  induction l with
  | nil => rfl
  | cons x xs ih =>
    rcases Bool.eq_false_or_eq_true (cb x.1 x.2) with hx | hx
    · rw [takeToStop_cons_true cb x xs hx] at h
      simp at h
    · rw [takeToStop_cons_false cb x xs hx] at h ⊢
      rw [ih h]

lemma scanLoop_ok (v : ReaderAt) (e : Nat) (cb : List Nat → Nat → Bool)
    (he : e < 2 ^ 24) (hlen : 2 ^ 27 ≤ v.len) (hbig : v.len < 2 ^ 63) :
    ∀ fuel p hash acc, p ≤ e → e + 1 - p ≤ fuel →
      (∀ q, p ≤ q → q ≤ e → bucketOk v q) →
      hash.length = 20 → hash.take 3 = natToBytes3 p →
      scanLoop v e cb fuel p hash acc =
        some ⟨acc ++ (takeToStop cb (rangeTagged v p e)).1, .okDone⟩ := by
  intro fuel
  induction fuel with
  | zero =>
    intro p hash acc hpe hfuel _ _ _
    omega
  | succ fuel ih =>
    intro p hash acc hpe hfuel hok hh hp3
    have hp24 : p < 2 ^ 24 := by omega
    have hshort : p % 2 ^ 24 = p := Nat.mod_eq_of_lt hp24
    obtain ⟨h1, h2, h3, h4⟩ := hok p (le_refl p) hpe
    rw [IndexSegmentSize_eq] at h2
    have hLm : nextEntry v p - idxEntry v p = 19 * bucketN v p := by
      unfold bucketN
      omega
    have hlookup := lookup_eq v p hp24 hlen hbig h1 h2
    have hDSO : (DataSegmentOffset : Nat) = 2 ^ 27 := by decide
    have hoff : ((DataSegmentOffset : Nat) : Int) + ((idxEntry v p : Nat) : Int)
        = (((2 ^ 27 + idxEntry v p : Nat) : Int)) := by
      rw [hDSO]
      push_cast [Nat.cast_add]
      ring
    have hcount : (((nextEntry v p - idxEntry v p : Nat) : Int)).toNat
        = nextEntry v p - idxEntry v p := Int.toNat_natCast _
    have hbound : 2 ^ 27 + idxEntry v p + (nextEntry v p - idxEntry v p) ≤ v.len := by
      omega
    have hread : v.readAt (((2 ^ 27 + idxEntry v p : Nat) : Int))
        (nextEntry v p - idxEntry v p)
        = some ((List.range (nextEntry v p - idxEntry v p)).map
            (fun i => v.byteAt (2 ^ 27 + idxEntry v p + i))) := by
      rw [readAt_nat, if_pos hbound]
    simp only [scanLoop, hshort, hlookup]
    rw [if_neg (by omega :
      ¬(((nextEntry v p - idxEntry v p : Nat) : Int) < 0 ∨
        8192 < ((nextEntry v p - idxEntry v p : Nat) : Int)))]
    rw [hoff, hcount, hread]
    rw [hLm]
    rw [show (19 * bucketN v p + 18) / 19 = bucketN v p from by omega]
    obtain ⟨hash', heq, hlen', hp3'⟩ :=
      recLoop_spec v (idxEntry v p) (bucketN v p) cb (natToBytes3 p)
        (by omega) (bucketN v p) 0 hash acc (by omega) hh hp3
    rw [show (19 * 0 : Nat) = 0 from rfl, List.drop_zero] at heq
    have htb : (bucketRecs v (idxEntry v p) (bucketN v p)).map
        (fun r => (natToBytes3 p ++ r.1, r.2)) = taggedBucket v p := rfl
    rw [htb] at heq
    rcases Bool.eq_false_or_eq_true (takeToStop cb (taggedBucket v p)).2 with
      hflag | hflag
    · -- callback fired inside this bucket: scan returns successfully
      rw [hflag, if_pos rfl] at heq
      simp only [heq]
      rw [rangeTagged_step v p e hpe, takeToStop_append_true cb _ _ hflag]
    · -- bucket ran to completion
      rw [hflag, if_neg (by simp)] at heq
      simp only [heq]
      have ht1 : (takeToStop cb (taggedBucket v p)).1 = taggedBucket v p :=
        takeToStop_false_fst cb _ hflag
      by_cases hpe2 : p = e
      · subst hpe2
        rw [if_pos rfl, rangeTagged_last]
      · rw [if_neg hpe2]
        have hc1 : (p + 1) % 2 ^ 32 = p + 1 := Nat.mod_eq_of_lt (by omega)
        have hc2 : (p + 1) % 2 ^ 24 = p + 1 := Nat.mod_eq_of_lt (by omega)
        simp only [hc1, hc2]
        rw [if_neg (by omega : ¬2 ^ 24 < p + 1)]
        have hw1 : (writeBytes hash' 0 (natToBytes3 (p + 1))).length = 20 := by
          rw [writeBytes_length]
          · exact hlen'
          · rw [natToBytes3_length]
            omega
        have hw2 : (writeBytes hash' 0 (natToBytes3 (p + 1))).take 3
            = natToBytes3 (p + 1) :=
          writeBytes_take3 _ _ (natToBytes3_length (p + 1))
        rw [ih (p + 1) (writeBytes hash' 0 (natToBytes3 (p + 1)))
          (acc ++ (takeToStop cb (taggedBucket v p)).1)
          (by omega) (by omega)
          (fun q hq1 hq2 => hok q (by omega) hq2) hw1 hw2]
        rw [rangeTagged_step v p e hpe, takeToStop_append_false cb _ _ hflag, ht1]
        simp

lemma byteNorm_length (l : List Nat) : (byteNorm l).length = l.length := by
  simp [byteNorm]

lemma compare_ne_gt (s e : Nat) (hse : s ≤ e) : ¬compare s e = Ordering.gt := by
  intro h
  rw [Nat.compare_eq_gt] at h
  omega

lemma scan_ok (v : ReaderAt) (s e : Nat) (hash0 : List Nat)
    (cb : List Nat → Nat → Bool) (hse : s ≤ e) (he : e < 2 ^ 24)
    (hlen : 2 ^ 27 ≤ v.len) (hbig : v.len < 2 ^ 63)
    (hok : ∀ q, s ≤ q → q ≤ e → bucketOk v q) (hh : hash0.length = 20) :
    scan v (natToBytes3 s) (natToBytes3 e) hash0 cb =
      some ⟨(takeToStop cb (rangeTagged v s e)).1, .okDone⟩ := by
  have hcmp : ¬bytesCompare (natToBytes3 s) (natToBytes3 e) = Ordering.gt := by
    rw [natToBytes3_compare s e (by omega) he]
    exact compare_ne_gt s e hse
  have hsVal : beBytesToNat (0 :: natToBytes3 s) = s := by
    rw [beBytesToNat_zero_cons, beBytes_natToBytes3 s (by omega)]
  have heVal : beBytesToNat (0 :: natToBytes3 e) = e := by
    rw [beBytesToNat_zero_cons, beBytes_natToBytes3 e he]
  have hw1 : (writeBytes (byteNorm hash0) 0 (natToBytes3 s)).length = 20 := by
    rw [writeBytes_length]
    · rw [byteNorm_length]; exact hh
    · rw [natToBytes3_length, byteNorm_length]; omega
  have hw2 : (writeBytes (byteNorm hash0) 0 (natToBytes3 s)).take 3
      = natToBytes3 s := writeBytes_take3 _ _ (natToBytes3_length s)
  simp only [scan, byteNorm_natToBytes3]
  rw [if_neg hcmp, if_neg (by omega : ¬hash0.length < 3)]
  rw [hsVal, heVal]
  rw [scanLoop_ok v e cb he hlen hbig (2 ^ 24 + 2) s
    (writeBytes (byteNorm hash0) 0 (natToBytes3 s)) [] hse (by omega) hok hw1 hw2]
  simp

lemma bytesCompare_refl (l : List Nat) : bytesCompare l l = .eq := by
  induction l with
  | nil => rfl
  | cons a as ih => simp [bytesCompare, ih]

lemma taggedBucket_pairwise (v : ReaderAt) (p : Nat)
    (hs : bucketSorted v p) :
    List.Pairwise (fun x y => bytesCompare x.1 y.1 = Ordering.lt)
      (taggedBucket v p) := by
  unfold taggedBucket
  rw [List.pairwise_map]
  apply List.Pairwise.imp ?_ hs
  intro a b hab
  have h := bytesCompare_append (natToBytes3 p) (natToBytes3 p) a.1 b.1 rfl
  rw [bytesCompare_refl] at h
  rw [h, hab]
  rfl

lemma mem_taggedBucket (v : ReaderAt) (q : Nat) (x : List Nat × Nat)
    (hx : x ∈ taggedBucket v q) :
    ∃ r : List Nat × Nat, x = (natToBytes3 q ++ r.1, r.2) := by
  unfold taggedBucket at hx
  obtain ⟨r, _, hr⟩ := List.mem_map.mp hx
  exact ⟨r, hr.symm⟩

lemma rangeTaggedN_sorted (v : ReaderAt) :
    ∀ n s, s + n ≤ 2 ^ 24 → (∀ p, s ≤ p → p < s + n → bucketSorted v p) →
      List.Pairwise (fun x y => bytesCompare x.1 y.1 = Ordering.lt)
        (rangeTaggedN v s n) := by
  intro n
  induction n with
  | zero => intro s _ _; exact List.Pairwise.nil
  | succ n ih =>
    intro s hs24 hsort
    rw [show rangeTaggedN v s (n + 1)
        = taggedBucket v s ++ rangeTaggedN v (s + 1) n from rfl]
    rw [List.pairwise_append]
    refine ⟨taggedBucket_pairwise v s (hsort s (le_refl s) (by omega)),
      ih (s + 1) (by omega) (fun p h1 h2 => hsort p (by omega) (by omega)), ?_⟩
    intro a ha b hb
    obtain ⟨ra, hra⟩ := mem_taggedBucket v s a ha
    obtain ⟨q, hq1, hq2, hbq⟩ := mem_rangeTaggedN v (s + 1) n b hb
    obtain ⟨rb, hrb⟩ := mem_taggedBucket v q b hbq
    rw [hra, hrb]
    have h := bytesCompare_append (natToBytes3 s) (natToBytes3 q) ra.1 rb.1 rfl
    rw [natToBytes3_compare s q (by omega) (by omega)] at h
    rw [h, Nat.compare_eq_lt.mpr (by omega : s < q)]
    rfl

lemma rangeTagged_sorted (v : ReaderAt) (s e : Nat) (hse : s ≤ e)
    (he : e < 2 ^ 24)
    (hsort : ∀ p, s ≤ p → p ≤ e → bucketSorted v p) :
    List.Pairwise (fun x y => bytesCompare x.1 y.1 = Ordering.lt)
      (rangeTagged v s e) := by
  unfold rangeTagged
  exact rangeTaggedN_sorted v (e + 1 - s) s (by omega)
    (fun p h1 h2 => hsort p h1 (by omega))

/-- C4: for every valid range `s ≤ e` over a well-formed database, `Scan`
with a non-stopping callback returns success and visits exactly the tagged
records of the buckets with prefix in `[s, e]`, in strictly ascending
lexicographic hash order.  The instance `s = e` is the scan(p, p) bounds
inclusivity property, and `e = 2^24 - 1` (0xFFFFFF) is allowed: the loop
breaks on the inclusive end-prefix test before any prefix advancement, so
the scan terminates right after the last bucket. -/
theorem scan_range_exact (v : ReaderAt) (s e : Nat) (hash0 : List Nat)
    (hse : s ≤ e) (he : e < 2 ^ 24) (hlen : 2 ^ 27 ≤ v.len)
    (hbig : v.len < 2 ^ 63)
    (hok : ∀ p, s ≤ p → p ≤ e → bucketOk v p)
    (hsort : ∀ p, s ≤ p → p ≤ e → bucketSorted v p)
    (hh : hash0.length = 20) :
    scan v (natToBytes3 s) (natToBytes3 e) hash0 (fun _ _ => false) =
        some ⟨rangeTagged v s e, .okDone⟩ ∧
      List.Pairwise (fun x y => bytesCompare x.1 y.1 = Ordering.lt)
        (rangeTagged v s e) := by
  constructor
  · rw [scan_ok v s e hash0 _ hse he hlen hbig hok hh]
    rw [takeToStop_nostop _ _ (fun x _ => rfl)]
  · exact rangeTagged_sorted v s e hse he hsort

/-- Witness for C4 at a concrete database: `db2` scanned over the range
`[000000, 000001]`. -/
theorem scan_range_exact_witness :
    scan db2 (natToBytes3 0) (natToBytes3 1) hashZero (fun _ _ => false) =
        some ⟨rangeTagged db2 0 1, .okDone⟩ ∧
      List.Pairwise (fun x y => bytesCompare x.1 y.1 = Ordering.lt)
        (rangeTagged db2 0 1) :=
  scan_range_exact db2 0 1 hashZero (by decide) (by decide) (by decide)
    (by decide) (fun p _ hp => by interval_cases p <;> decide)
    (fun p _ hp => by interval_cases p <;> decide) (by decide)

/-- C7: over a well-formed range, `Scan` with an arbitrary callback returns
success and its visit sequence is the prefix of the range's records up to
and including the first record on which the callback returns true.  In
particular (second conjunct) a callback that never fires is invoked once
per record in the range, and (third conjunct) a callback that first fires
at the k-th record causes exactly k invocations before the successful
return. -/
theorem scan_early_stop (v : ReaderAt) (s e : Nat) (hash0 : List Nat)
    (cb : List Nat → Nat → Bool) (hse : s ≤ e) (he : e < 2 ^ 24)
    (hlen : 2 ^ 27 ≤ v.len) (hbig : v.len < 2 ^ 63)
    (hok : ∀ p, s ≤ p → p ≤ e → bucketOk v p) (hh : hash0.length = 20) :
    scan v (natToBytes3 s) (natToBytes3 e) hash0 cb =
        some ⟨(takeToStop cb (rangeTagged v s e)).1, .okDone⟩ ∧
      ((∀ x ∈ rangeTagged v s e, cb x.1 x.2 = false) →
        (takeToStop cb (rangeTagged v s e)).1 = rangeTagged v s e) ∧
      (∀ l₁ x l₂, rangeTagged v s e = l₁ ++ x :: l₂ →
        (∀ y ∈ l₁, cb y.1 y.2 = false) → cb x.1 x.2 = true →
        (takeToStop cb (rangeTagged v s e)).1 = l₁ ++ [x]) := by
  refine ⟨scan_ok v s e hash0 cb hse he hlen hbig hok hh, ?_, ?_⟩
  · intro hno
    rw [takeToStop_nostop cb _ hno]
  · intro l₁ x l₂ hsplit h1 hx
    rw [hsplit, takeToStop_fire cb l₁ x l₂ h1 hx]

/-- Witness for C7: scanning `db2` with a callback that stops on
frequency 5, the first record's frequency. -/
theorem scan_early_stop_witness :
    scan db2 (natToBytes3 0) (natToBytes3 1) hashZero (fun _ f => f == 5) =
        some ⟨(takeToStop (fun _ f => f == 5) (rangeTagged db2 0 1)).1, .okDone⟩ ∧
      ((∀ x ∈ rangeTagged db2 0 1, (fun _ f => f == 5) x.1 x.2 = false) →
        (takeToStop (fun _ f => f == 5) (rangeTagged db2 0 1)).1 =
          rangeTagged db2 0 1) ∧
      (∀ l₁ x l₂, rangeTagged db2 0 1 = l₁ ++ x :: l₂ →
        (∀ y ∈ l₁, (fun _ f => f == 5) y.1 y.2 = false) →
        (fun _ f => f == 5) x.1 x.2 = true →
        (takeToStop (fun _ f => f == 5) (rangeTagged db2 0 1)).1 = l₁ ++ [x]) :=
  scan_early_stop db2 0 1 hashZero (fun _ f => f == 5) (by decide) (by decide)
    (by decide) (by decide) (fun p _ hp => by interval_cases p <;> decide)
    (by decide)

lemma scanLoop_no_invalid (v : ReaderAt) (endP : Nat)
    (cb : List Nat → Nat → Bool) :
    ∀ fuel cur hash acc r, scanLoop v endP cb fuel cur hash acc = some r →
      r.outcome ≠ ScanOutcome.invalidRange := by
  intro fuel
  induction fuel with
  | zero =>
    intro cur hash acc r hr
    simp [scanLoop] at hr
  | succ fuel ih =>
    intro cur hash acc r hr
    simp only [scanLoop] at hr
    split at hr
    · injection hr with h
      subst h
      simp
    · split at hr
      · injection hr with h
        subst h
        simp
      · split at hr
        · injection hr with h
          subst h
          simp
        · split at hr
          · injection hr with h
            subst h
            simp
          · injection hr with h
            subst h
            simp
          · split at hr
            · injection hr with h
              subst h
              simp
            · split at hr
              · injection hr with h
                subst h
                simp
              · exact ih _ _ _ _ hr

/-- C6: a `Scan` result carries the invalid-range error exactly when the
start and end bounds compare greater (unsigned lexicographic byte order,
`bytes.Compare == 1`), and in that case the result records no callback
visits.  The statement holds for every view `v`, every hash slice and
every callback: the invalid-range return is decided before the buffer is
taken, before the hash slice is touched and before any read of the view,
which is why nothing but the two bound arguments can influence it. -/
theorem scan_invalid_range (v : ReaderAt) (sB eB hash0 : List Nat)
    (cb : List Nat → Nat → Bool) (r : ScanResult)
    (hr : scan v sB eB hash0 cb = some r) :
    (r.outcome = ScanOutcome.invalidRange ↔
      bytesCompare (byteNorm sB) (byteNorm eB) = Ordering.gt) ∧
    (bytesCompare (byteNorm sB) (byteNorm eB) = Ordering.gt →
      r = ⟨[], ScanOutcome.invalidRange⟩) := by
  by_cases hgt : bytesCompare (byteNorm sB) (byteNorm eB) = Ordering.gt
  · rw [scan, if_pos hgt] at hr
    injection hr with h
    subst h
    exact ⟨by simp [hgt], fun _ => rfl⟩
  · rw [scan, if_neg hgt] at hr
    refine ⟨?_, fun hc => absurd hc hgt⟩
    simp only [hgt, iff_false]
    split at hr
    · injection hr with h
      subst h
      simp
    · exact scanLoop_no_invalid v _ cb _ _ _ _ r hr

/-- Witness for C6: a reversed range on the empty database yields the
invalid-range result. -/
theorem scan_invalid_range_witness :
    (ScanResult.mk [] ScanOutcome.invalidRange).outcome =
          ScanOutcome.invalidRange ↔
        bytesCompare (byteNorm [0, 0, 1]) (byteNorm [0, 0, 0]) = Ordering.gt :=
  (scan_invalid_range dbEmpty [0, 0, 1] [0, 0, 0] hashZero (fun _ _ => false)
    ⟨[], ScanOutcome.invalidRange⟩ (by decide)).1

lemma pwnedLoop_term (v : ReaderAt) (start : Int) (sfx : List Nat) :
    ∀ f lo hi, 2 ≤ hi - lo → hi - lo ≤ 2 ^ f →
      pwnedLoop v start sfx f lo hi ≠ none := by
  intro f
  induction f with
  | zero =>
    intro lo hi h2 hle
    norm_num at hle
    omega
  | succ f ih =>
    intro lo hi h2 hle
    have htd : (hi - lo).tdiv 2 = (hi - lo) / 2 :=
      Int.tdiv_eq_ediv (by omega) (by norm_num)
    have h2f : (2 : Int) ^ (f + 1) = 2 * 2 ^ f := by ring
    rw [h2f] at hle
    simp only [pwnedLoop, htd]
    split
    · simp
    · split
      · simp
      · split
        · simp
        · apply ih
          · omega
          · omega
      · split
        · simp
        · apply ih
          · omega
          · omega

/-- C3 (amended): for every bucket holding `n = length / 19 ≥ 2` records,
the binary-search loop of `Pwned` always returns within
`⌈log₂ n⌉ + 1` probes (each probe consumes one unit of fuel, so a non-none
result at this fuel is exactly termination within that probe count),
whatever bytes the probes read.  The original claim extended this to every
`n` including 0; that fails: with `n ≤ 1` the state `(lo, hi)` can repeat
forever, see the counterexample. -/
theorem pwned_search_terminates (v : ReaderAt) (hash : List Nat)
    (start length : Int)
    (hl : lookup v ((byteNorm hash).take 3) = some (start, length))
    (hn : 2 ≤ length.tdiv 19) :
    pwned v hash (Nat.clog 2 (length.tdiv 19).toNat + 1) ≠ none := by
  have hnn : (0 : Int) ≤ length.tdiv 19 := by omega
  have htn : ((length.tdiv 19).toNat : Int) = length.tdiv 19 :=
    Int.toNat_of_nonneg hnn
  have hclog : (length.tdiv 19).toNat ≤
      2 ^ Nat.clog 2 (length.tdiv 19).toNat :=
    Nat.le_pow_clog (by norm_num) _
  have hpow : 2 ^ Nat.clog 2 (length.tdiv 19).toNat ≤
      2 ^ (Nat.clog 2 (length.tdiv 19).toNat + 1) :=
    Nat.pow_le_pow_right (by norm_num) (Nat.le_succ _)
  have hbound : length.tdiv 19 - 0 ≤
      (2 : Int) ^ (Nat.clog 2 (length.tdiv 19).toNat + 1) := by
    have : ((2 : Nat) ^ (Nat.clog 2 (length.tdiv 19).toNat + 1) : Int) =
        (2 : Int) ^ (Nat.clog 2 (length.tdiv 19).toNat + 1) := by
      push_cast
      ring
    omega
  simp only [pwned, hl]
  exact pwnedLoop_term v start ((byteNorm hash).drop 3) _ 0 (length.tdiv 19)
    (by omega) hbound

/-- Counterexample to C3 as frozen: on the well-formed database `db1`,
whose only bucket holds a single record (`lookup` yields length 19, so
`n = 1`), querying a hash whose suffix sorts below the stored record leaves
the binary-search state stuck at `lo = 0, hi = 0`: 64 probes of fuel are
exhausted without a return, although the claim promises termination within
`⌈log₂ 1⌉ + 1 = 1` probe. -/
theorem pwned_search_nonterm_cex :
    pwned db1 hashZero 64 = none ∧
      lookup db1 ((byteNorm hashZero).take 3) = some (0, 19) := by
  constructor
  · decide
  · decide

/-- Witness for the amended C3 at the two-record database `db2`. -/
theorem pwned_search_terminates_witness :
    pwned db2 hashZero (Nat.clog 2 ((38 : Int).tdiv 19).toNat + 1) ≠ none :=
  pwned_search_terminates db2 hashZero 0 38 (by decide) (by decide)

/-- C5: the index decoder of the source behaves exactly as the spec
describes it: the 8-byte big-endian entry at absolute offset
`8 * u24(prefix)` gives the bucket offset; for prefix 0xFFFFFF the length
is `view.len - 2^27 - offset`, otherwise the next 8-byte entry is read and
the length is `next_offset - offset` (the source fetches both entries in
one 16-byte read, which succeeds in exactly the same cases).  A short read
is an error (`none`); a zero length is an ordinary `some` result, as the
second conjunct shows on a concrete empty bucket. -/
theorem lookup_matches_ref (v : ReaderAt) (pre : List Nat) :
    lookup v pre = lookupRef v pre ∧ lookup db2 [0, 0, 1] = some (38, 0) := by
  refine ⟨?_, by decide⟩
  have hc1 : (8 : Int) * ((beBytesToNat (0 :: pre) : Nat) : Int)
      = ((8 * beBytesToNat (0 :: pre) : Nat) : Int) := by push_cast; ring
  have hc2 : ((8 * beBytesToNat (0 :: pre) : Nat) : Int) + 8
      = ((8 * beBytesToNat (0 :: pre) + 8 : Nat) : Int) := by push_cast; ring
  have hIdx : ((IndexSegmentSize : Nat) : Int) = (2 : Int) ^ 27 := by
    rw [IndexSegmentSize_eq]; norm_cast
  by_cases hff : pre = [255, 255, 255]
  · by_cases hb : 8 * beBytesToNat (0 :: pre) + 8 ≤ v.len
    · simp only [lookup, lookupRef, if_pos hff, hc1, readAt_nat, if_pos hb,
        hIdx]
    · simp only [lookup, lookupRef, if_pos hff, hc1, readAt_nat, if_neg hb]
  · by_cases hb8 : 8 * beBytesToNat (0 :: pre) + 8 ≤ v.len
    · by_cases hb16 : 8 * beBytesToNat (0 :: pre) + 16 ≤ v.len
      · have hb88 : 8 * beBytesToNat (0 :: pre) + 8 + 8 ≤ v.len := by omega
        have hmap : (List.range 8).map
            (fun i => v.byteAt (8 * beBytesToNat (0 :: pre) + (8 + i)))
            = (List.range 8).map
              (fun i => v.byteAt (8 * beBytesToNat (0 :: pre) + 8 + i)) := by
          apply List.map_congr_left
          intro i _
          congr 1
          ring
        simp only [lookup, lookupRef, if_neg hff, hc1, hc2, readAt_nat,
          if_pos hb8, if_pos hb16, if_pos hb88, range16_take, range16_drop,
          hmap]
      · have hb88 : ¬8 * beBytesToNat (0 :: pre) + 8 + 8 ≤ v.len := by omega
        simp only [lookup, lookupRef, if_neg hff, hc1, hc2, readAt_nat,
          if_pos hb8, if_neg hb16, if_neg hb88]
    · have hb16 : ¬8 * beBytesToNat (0 :: pre) + 16 ≤ v.len := by omega
      simp only [lookup, lookupRef, if_neg hff, hc1, readAt_nat,
        if_neg hb8, if_neg hb16]

lemma idxEntry_oneBucket_zero (data : List Nat) (len : Nat) :
    idxEntry ⟨len, oneBucketByte data⟩ 0 = 0 := by
  have hb : ∀ i ∈ List.range 8,
      ReaderAt.byteAt ⟨len, oneBucketByte data⟩ (8 * 0 + i) = (fun _ => 0) i := by
    intro i hi
    rw [List.mem_range] at hi
    unfold ReaderAt.byteAt oneBucketByte
    simp only
    rw [if_pos (by omega : 8 * 0 + i < 2 ^ 27), if_pos (by omega : 8 * 0 + i < 8)]
  unfold idxEntry
  rw [List.map_congr_left hb]
  decide

lemma idxEntry_oneBucket_pos (data : List Nat) (len p : Nat)
    (hp1 : 1 ≤ p) (hp2 : p < 2 ^ 24) (hd : data.length < 65536) :
    idxEntry ⟨len, oneBucketByte data⟩ p = data.length := by
  have hb : ∀ i ∈ List.range 8,
      ReaderAt.byteAt ⟨len, oneBucketByte data⟩ (8 * p + i) =
        (fun i => if i = 7 then data.length % 256
          else if i = 6 then data.length / 256 % 256 else 0) i := by
    intro i hi
    rw [List.mem_range] at hi
    unfold ReaderAt.byteAt oneBucketByte
    simp only
    rw [if_pos (by omega : 8 * p + i < 2 ^ 27),
      if_neg (by omega : ¬8 * p + i < 8)]
    have hmod : (8 * p + i) % 8 = i := by omega
    rw [hmod]
    by_cases h7 : i = 7
    · subst h7
      rw [if_pos rfl]
      omega
    · by_cases h6 : i = 6
      · subst h6
        rw [if_neg h7, if_pos rfl]
        omega
      · rw [if_neg h7, if_neg h6]
  unfold idxEntry
  rw [List.map_congr_left hb]
  have hexp : beBytesToNat ((List.range 8).map
      (fun i => if i = 7 then data.length % 256
        else if i = 6 then data.length / 256 % 256 else 0)) =
      (data.length / 256 % 256) * 256 + data.length % 256 := by
    simp [beBytesToNat, List.range_succ]
  rw [hexp]
  omega

lemma oneBucket_bucketOk (data : List Nat) (p : Nat) (hp : p < 2 ^ 24)
    (hd : data.length ≤ 8192) (hd19 : 19 ∣ data.length) :
    bucketOk ⟨2 ^ 27 + data.length, oneBucketByte data⟩ p := by
  have hd6 : data.length < 65536 := by omega
  unfold bucketOk nextEntry
  rw [IndexSegmentSize_eq]
  dsimp only
  by_cases hlast : p = 2 ^ 24 - 1
  · rw [if_pos hlast]
    rw [idxEntry_oneBucket_pos data _ p (by omega) hp hd6]
    refine ⟨by omega, by omega, by omega, by omega⟩
  · rw [if_neg hlast]
    by_cases hz : p = 0
    · subst hz
      rw [idxEntry_oneBucket_zero data _,
        idxEntry_oneBucket_pos data _ 1 (by omega) (by omega) hd6]
      refine ⟨by omega, by omega, by omega, by omega⟩
    · rw [idxEntry_oneBucket_pos data _ p (by omega) hp hd6,
        idxEntry_oneBucket_pos data _ (p + 1) (by omega) (by omega) hd6]
      refine ⟨by omega, by omega, by omega, by omega⟩

lemma oneBucket_sorted_pos (data : List Nat) (p : Nat)
    (hp1 : 1 ≤ p) (hp : p < 2 ^ 24) (hd : data.length < 65536) :
    bucketSorted ⟨2 ^ 27 + data.length, oneBucketByte data⟩ p := by
  unfold bucketSorted
  have hn : bucketN ⟨2 ^ 27 + data.length, oneBucketByte data⟩ p = 0 := by
    unfold bucketN nextEntry
    rw [IndexSegmentSize_eq]
    dsimp only
    by_cases hlast : p = 2 ^ 24 - 1
    · rw [if_pos hlast, idxEntry_oneBucket_pos data _ p (by omega) hp hd]
      omega
    · rw [if_neg hlast, idxEntry_oneBucket_pos data _ p (by omega) hp hd,
        idxEntry_oneBucket_pos data _ (p + 1) (by omega) (by omega) hd]
      omega
  rw [hn]
  exact List.Pairwise.nil

/-- Full well-formedness of the two-record database `db2`: every index
entry is non-decreasing and within the data segment, every bucket length
is a multiple of 19 (at most 8192), and every bucket's suffixes are
strictly increasing. -/
lemma db2_wf : ∀ p, p < 2 ^ 24 → bucketOk db2 p ∧ bucketSorted db2 p := by
  intro p hp
  constructor
  · exact oneBucket_bucketOk db2data p hp (by decide) (by decide)
  · by_cases hz : p = 0
    · subst hz
      decide
    · exact oneBucket_sorted_pos db2data p (by omega) hp (by decide)

/-- Full well-formedness of the one-record database `db1`. -/
lemma db1_wf : ∀ p, p < 2 ^ 24 → bucketOk db1 p ∧ bucketSorted db1 p := by
  intro p hp
  constructor
  · exact oneBucket_bucketOk db1data p hp (by decide) (by decide)
  · by_cases hz : p = 0
    · subst hz
      decide
    · exact oneBucket_sorted_pos db1data p (by omega) hp (by decide)

lemma idxEntry_dbEmpty (p : Nat) : idxEntry dbEmpty p = 0 := by
  have hb : ∀ i ∈ List.range 8,
      ReaderAt.byteAt dbEmpty (8 * p + i) = (fun _ => 0) i := by
    intro i _
    rfl
  unfold idxEntry
  rw [List.map_congr_left hb]
  decide

/-- Full well-formedness of the empty database `dbEmpty`. -/
lemma dbEmpty_wf : ∀ p, p < 2 ^ 24 → bucketOk dbEmpty p ∧ bucketSorted dbEmpty p := by
  intro p hp
  constructor
  · unfold bucketOk nextEntry
    rw [IndexSegmentSize_eq, idxEntry_dbEmpty p]
    by_cases hlast : p = 2 ^ 24 - 1
    · rw [if_pos hlast]
      refine ⟨by decide, by decide, by decide, by decide⟩
    · rw [if_neg hlast, idxEntry_dbEmpty (p + 1)]
      refine ⟨by omega, by decide, by omega, by omega⟩
  · unfold bucketSorted
    have hn : bucketN dbEmpty p = 0 := by
      unfold bucketN nextEntry
      rw [IndexSegmentSize_eq, idxEntry_dbEmpty p]
      by_cases hlast : p = 2 ^ 24 - 1
      · rw [if_pos hlast]
        decide
      · rw [if_neg hlast, idxEntry_dbEmpty (p + 1)]
    rw [hn]
    exact List.Pairwise.nil

/-- C1 (code bug): on the well-formed two-record database `db2`
(well-formedness is `db2_wf`), the hash `000000 || 00..00` is stored at
index 0 of its bucket with frequency 5 (second conjunct), yet `Pwned`
answers frequency 0 with a nil error (first conjunct; the fuel argument
only bounds the probe count, a `some` result is the loop's actual
return).  Cause: with `lo, hi` initialized to `0, n` the binary search can
never probe index 0 of a bucket of `n ≥ 2` records, because reaching
`(lo, hi) = (0, 1)` requires an assignment `hi = 1` that the
`hi - lo == 1` check turns into an immediate `return 0`.  The record at
index 1 of the same bucket is found correctly (third conjunct), isolating
the defect to the first record of a bucket. -/
theorem pwned_misses_first_record :
    pwned db2 hashZero 64 = some (PwnedRes.ok 0) ∧
      (hashZero.drop 3, 5) ∈ bucketRecs db2 (idxEntry db2 0) (bucketN db2 0) ∧
      pwned db2 hashOnes 64 = some (PwnedRes.ok 7) :=
  ⟨by decide, by decide, by decide⟩

/-- C2 (code bug): for an empty bucket `Pwned` does not return 0 after the
index lookup; it always issues one 19-byte data-segment probe at the
bucket base.  On the all-zero empty database that read fails past the end
of the file and `Pwned` returns an I/O error, not `(0, nil)` (first
conjunct).  On `dbShift`, whose bucket 0 is empty (second conjunct) while
data for prefix 000001 lies at the probe location, the probe decodes the
other bucket's record: the absent hash `000000 || 01..01` is reported with
frequency 7 (third conjunct), and the absent hash `000000 || 00..00`
leaves the loop spinning in place, still unfinished after 64 probes
(fourth conjunct).  `Scan` by contrast visits zero records on the empty
database, as the spec's scenario expects (fifth conjunct). -/
theorem pwned_empty_bucket_misbehaves :
    pwned dbEmpty hashZero 64 = some PwnedRes.ioError ∧
      bucketN dbShift 0 = 0 ∧
      pwned dbShift hashOnes 64 = some (PwnedRes.ok 7) ∧
      pwned dbShift hashZero 64 = none ∧
      scan dbEmpty (natToBytes3 0) (natToBytes3 0) hashZero
        (fun _ _ => false) = some ⟨[], ScanOutcome.okDone⟩ :=
  ⟨by decide, by decide, by decide, by decide, by decide⟩

/-- C8 (code bug): the `/range/` validator accepts every 5-character
alphanumeric value, not only hex.  "GGGGG" (bytes 71,71,71,71,71) passes
`isHashPrefix` although 'G' is not a hex digit (`fromHexChar 71 = none`),
so the handler performs a scan: the failure of `hex.Decode` is discarded
and the zero-initialized bound arrays give the range 000000-000000
(first conjunct), where its own doc comment ("a valid 5-character
hex-encoded prefix") and the spec demand a 400 response with no scan.
Length is enforced: the 4-character "5BAA" is rejected with 400 (fourth
conjunct), and the well-formed "5BAA6" yields the documented scan bounds
(fifth conjunct). -/
theorem serveRange_accepts_nonhex :
    serveRange [71, 71, 71, 71, 71] =
        RangeOutcome.scanned [0, 0, 0] [0, 0, 0] ∧
      isHashPre [71, 71, 71, 71, 71] = true ∧
      fromHexChar 71 = none ∧
      serveRange [53, 66, 65, 65] = RangeOutcome.badRequest ∧
      serveRange [53, 66, 65, 65, 54] =
        RangeOutcome.scanned [91, 170, 96] [91, 170, 111] :=
  ⟨by decide, by decide, by decide, by decide, by decide⟩

lemma takeToStop_const_false (l : List (List Nat × Nat)) :
    takeToStop (fun _ _ => false) l = (l, false) :=
  takeToStop_nostop _ l (fun _ _ => rfl)

lemma scanLoop_panic (v : ReaderAt) (e : Nat) (he : e < 2 ^ 24)
    (hlen : 2 ^ 27 ≤ v.len) (hbig : v.len < 2 ^ 63) (q : Nat) (hqe : q ≤ e)
    (hq1 : idxEntry v q ≤ nextEntry v q)
    (hq2 : nextEntry v q ≤ v.len - 2 ^ 27)
    (hbad : 8192 < nextEntry v q - idxEntry v q) :
    ∀ fuel p hash acc, p ≤ q → q + 1 - p ≤ fuel →
      (∀ r, p ≤ r → r < q → bucketOk v r) →
      hash.length = 20 → hash.take 3 = natToBytes3 p →
      scanLoop v e (fun _ _ => false) fuel p hash acc =
        some ⟨acc ++ rangeTaggedN v p (q - p), .panicked⟩ := by
  intro fuel
  induction fuel with
  | zero =>
    intro p hash acc hpq hfuel _ _ _
    omega
  | succ fuel ih =>
    intro p hash acc hpq hfuel hok hh hp3
    have hp24 : p < 2 ^ 24 := by omega
    have hshort : p % 2 ^ 24 = p := Nat.mod_eq_of_lt hp24
    by_cases hpq2 : p = q
    · -- the oversized bucket: buffer[0:length] slicing panics
      subst hpq2
      have hlookup := lookup_eq v p hp24 hlen hbig hq1 hq2
      simp only [scanLoop, hshort, hlookup]
      rw [if_pos (by
        right
        have : (8192 : Int) < ((nextEntry v p - idxEntry v p : Nat) : Int) := by
          omega
        exact this)]
      rw [show p - p = 0 from by omega]
      simp [rangeTaggedN]
    · -- a well-formed bucket before the oversized one: one full pass
      have hplt : p < q := by omega
      obtain ⟨h1, h2, h3, h4⟩ := hok p (le_refl p) hplt
      rw [IndexSegmentSize_eq] at h2
      have hLm : nextEntry v p - idxEntry v p = 19 * bucketN v p := by
        unfold bucketN
        omega
      have hlookup := lookup_eq v p hp24 hlen hbig h1 h2
      have hDSO : (DataSegmentOffset : Nat) = 2 ^ 27 := by decide
      have hoff : ((DataSegmentOffset : Nat) : Int) + ((idxEntry v p : Nat) : Int)
          = (((2 ^ 27 + idxEntry v p : Nat) : Int)) := by
        rw [hDSO]
        push_cast [Nat.cast_add]
        ring
      have hcount : (((nextEntry v p - idxEntry v p : Nat) : Int)).toNat
          = nextEntry v p - idxEntry v p := Int.toNat_natCast _
      have hbound : 2 ^ 27 + idxEntry v p + (nextEntry v p - idxEntry v p) ≤ v.len := by
        omega
      have hread : v.readAt (((2 ^ 27 + idxEntry v p : Nat) : Int))
          (nextEntry v p - idxEntry v p)
          = some ((List.range (nextEntry v p - idxEntry v p)).map
              (fun i => v.byteAt (2 ^ 27 + idxEntry v p + i))) := by
        rw [readAt_nat, if_pos hbound]
      simp only [scanLoop, hshort, hlookup]
      rw [if_neg (by omega :
        ¬(((nextEntry v p - idxEntry v p : Nat) : Int) < 0 ∨
          8192 < ((nextEntry v p - idxEntry v p : Nat) : Int)))]
      rw [hoff, hcount, hread]
      rw [hLm]
      rw [show (19 * bucketN v p + 18) / 19 = bucketN v p from by omega]
      obtain ⟨hash', heq, hlen', hp3'⟩ :=
        recLoop_spec v (idxEntry v p) (bucketN v p) (fun _ _ => false)
          (natToBytes3 p) (by omega) (bucketN v p) 0 hash acc (by omega) hh hp3
      rw [show (19 * 0 : Nat) = 0 from rfl, List.drop_zero] at heq
      have htb : (bucketRecs v (idxEntry v p) (bucketN v p)).map
          (fun r => (natToBytes3 p ++ r.1, r.2)) = taggedBucket v p := rfl
      rw [htb] at heq
      have hflag : (takeToStop (fun _ _ => false) (taggedBucket v p)).2 = false := by
        rw [takeToStop_const_false]
      have ht1 : (takeToStop (fun _ _ => false) (taggedBucket v p)).1
          = taggedBucket v p := by
        rw [takeToStop_const_false]
      rw [hflag, if_neg (by simp)] at heq
      simp only [heq]
      rw [if_neg (by omega : ¬p = e)]
      have hc1 : (p + 1) % 2 ^ 32 = p + 1 := Nat.mod_eq_of_lt (by omega)
      have hc2 : (p + 1) % 2 ^ 24 = p + 1 := Nat.mod_eq_of_lt (by omega)
      simp only [hc1, hc2]
      rw [if_neg (by omega : ¬2 ^ 24 < p + 1)]
      have hw1 : (writeBytes hash' 0 (natToBytes3 (p + 1))).length = 20 := by
        rw [writeBytes_length]
        · exact hlen'
        · rw [natToBytes3_length]
          omega
      have hw2 : (writeBytes hash' 0 (natToBytes3 (p + 1))).take 3
          = natToBytes3 (p + 1) :=
        writeBytes_take3 _ _ (natToBytes3_length (p + 1))
      rw [ih (p + 1) (writeBytes hash' 0 (natToBytes3 (p + 1)))
        (acc ++ (takeToStop (fun _ _ => false) (taggedBucket v p)).1)
        (by omega) (by omega) (fun r hr1 hr2 => hok r (by omega) hr2) hw1 hw2]
      rw [ht1]
      rw [show q - p = (q - (p + 1)) + 1 from by omega]
      rw [show rangeTaggedN v p ((q - (p + 1)) + 1)
          = taggedBucket v p ++ rangeTaggedN v (p + 1) (q - (p + 1)) from rfl]
      simp

lemma scan_panic (w : ReaderAt) (s e q : Nat) (hash1 : List Nat)
    (hse : s ≤ e) (he : e < 2 ^ 24) (hlen : 2 ^ 27 ≤ w.len)
    (hbig : w.len < 2 ^ 63) (hqs : s ≤ q) (hqe : q ≤ e)
    (hokw : ∀ r, s ≤ r → r < q → bucketOk w r)
    (hq1 : idxEntry w q ≤ nextEntry w q)
    (hq2 : nextEntry w q ≤ w.len - 2 ^ 27)
    (hbad : 8192 < nextEntry w q - idxEntry w q)
    (hh : hash1.length = 20) :
    scan w (natToBytes3 s) (natToBytes3 e) hash1 (fun _ _ => false) =
      some ⟨rangeTaggedN w s (q - s), .panicked⟩ := by
  have hcmp : ¬bytesCompare (natToBytes3 s) (natToBytes3 e) = Ordering.gt := by
    rw [natToBytes3_compare s e (by omega) he]
    exact compare_ne_gt s e hse
  have hsVal : beBytesToNat (0 :: natToBytes3 s) = s := by
    rw [beBytesToNat_zero_cons, beBytes_natToBytes3 s (by omega)]
  have heVal : beBytesToNat (0 :: natToBytes3 e) = e := by
    rw [beBytesToNat_zero_cons, beBytes_natToBytes3 e he]
  have hw1 : (writeBytes (byteNorm hash1) 0 (natToBytes3 s)).length = 20 := by
    rw [writeBytes_length]
    · rw [byteNorm_length]; exact hh
    · rw [natToBytes3_length, byteNorm_length]; omega
  have hw2 : (writeBytes (byteNorm hash1) 0 (natToBytes3 s)).take 3
      = natToBytes3 s := writeBytes_take3 _ _ (natToBytes3_length s)
  simp only [scan, byteNorm_natToBytes3]
  rw [if_neg hcmp, if_neg (by omega : ¬hash1.length < 3)]
  rw [hsVal, heVal]
  rw [scanLoop_panic w e he hlen hbig q hqe hq1 hq2 hbad (2 ^ 24 + 2) s
    (writeBytes (byteNorm hash1) 0 (natToBytes3 s)) [] hqs (by omega) hokw
    hw1 hw2]
  simp

/-- C9: `Scan` reads each bucket into the fixed 8192-byte pooled buffer
and never grows it.  First conjunct: over a range whose buckets are all
well formed (`bucketOk` includes the length bound 8192), the scan passes
with every read in bounds and no panic.  Second conjunct: on a view `w`
whose bucket `q` is longer than 8192 bytes, the `buffer[0:length]` slice
expression is out of bounds, a runtime panic, not an error return: the
scan reaches bucket `q`, visits the records of the well-formed buckets
before it, and ends in the panicked state.  Scan is therefore total only
under the precondition that every bucket in range is at most 8192 bytes. -/
theorem scan_buffer_limit (v w : ReaderAt) (s e q : Nat)
    (hash0 hash1 : List Nat) (hse : s ≤ e) (he : e < 2 ^ 24)
    (hlenv : 2 ^ 27 ≤ v.len) (hbigv : v.len < 2 ^ 63)
    (hokv : ∀ p, s ≤ p → p ≤ e → bucketOk v p) (hh0 : hash0.length = 20)
    (hlenw : 2 ^ 27 ≤ w.len) (hbigw : w.len < 2 ^ 63) (hqs : s ≤ q)
    (hqe : q ≤ e) (hokw : ∀ r, s ≤ r → r < q → bucketOk w r)
    (hq1 : idxEntry w q ≤ nextEntry w q)
    (hq2 : nextEntry w q ≤ w.len - 2 ^ 27)
    (hbad : 8192 < nextEntry w q - idxEntry w q)
    (hh1 : hash1.length = 20) :
    scan v (natToBytes3 s) (natToBytes3 e) hash0 (fun _ _ => false) =
        some ⟨rangeTagged v s e, .okDone⟩ ∧
      scan w (natToBytes3 s) (natToBytes3 e) hash1 (fun _ _ => false) =
        some ⟨rangeTaggedN w s (q - s), .panicked⟩ := by
  constructor
  · rw [scan_ok v s e hash0 _ hse he hlenv hbigv hokv hh0,
      takeToStop_const_false]
  · exact scan_panic w s e q hash1 hse he hlenw hbigw hqs hqe hokw hq1 hq2
      hbad hh1

/-- Witness for C9: `db2` scans fine over `[000000, 000000]`; `dbBig`,
whose bucket 000000 is 8208 bytes long, panics there at once. -/
theorem scan_buffer_limit_witness :
    scan db2 (natToBytes3 0) (natToBytes3 0) hashZero (fun _ _ => false) =
        some ⟨rangeTagged db2 0 0, .okDone⟩ ∧
      scan dbBig (natToBytes3 0) (natToBytes3 0) hashOnes (fun _ _ => false) =
        some ⟨rangeTaggedN dbBig 0 (0 - 0), .panicked⟩ :=
  scan_buffer_limit db2 dbBig 0 0 0 hashZero hashOnes (by decide) (by decide)
    (by decide) (by decide) (fun p _ hp => by interval_cases p; decide)
    (by decide) (by decide) (by decide) (by decide) (by omega)
    (fun r h1 h2 => by omega) (by decide) (by decide) (by decide) (by decide)

lemma taggedBucket_nil (v : ReaderAt) (p : Nat) (hm : bucketN v p = 0) :
    taggedBucket v p = [] := by
  unfold taggedBucket
  rw [hm]
  rfl

lemma scanLoop_shortHash (v : ReaderAt) (e : Nat)
    (cb : List Nat → Nat → Bool) (he : e < 2 ^ 24) (hlen : 2 ^ 27 ≤ v.len)
    (hbig : v.len < 2 ^ 63) :
    ∀ fuel p hash acc, p ≤ e → e + 1 - p ≤ fuel →
      (∀ r, p ≤ r → r ≤ e → bucketOk v r) →
      3 ≤ hash.length → hash.length < 20 →
      rangeTagged v p e ≠ [] →
      scanLoop v e cb fuel p hash acc = some ⟨acc, .panicked⟩ := by
  intro fuel
  induction fuel with
  | zero =>
    intro p hash acc hpe hfuel _ _ _ _
    omega
  | succ fuel ih =>
    intro p hash acc hpe hfuel hok h3 hlt20 hne
    have hp24 : p < 2 ^ 24 := by omega
    have hshort : p % 2 ^ 24 = p := Nat.mod_eq_of_lt hp24
    obtain ⟨h1, h2, h3ok, h4⟩ := hok p (le_refl p) hpe
    rw [IndexSegmentSize_eq] at h2
    have hLm : nextEntry v p - idxEntry v p = 19 * bucketN v p := by
      unfold bucketN
      omega
    have hlookup := lookup_eq v p hp24 hlen hbig h1 h2
    have hDSO : (DataSegmentOffset : Nat) = 2 ^ 27 := by decide
    have hoff : ((DataSegmentOffset : Nat) : Int) + ((idxEntry v p : Nat) : Int)
        = (((2 ^ 27 + idxEntry v p : Nat) : Int)) := by
      rw [hDSO]
      push_cast [Nat.cast_add]
      ring
    have hcount : (((nextEntry v p - idxEntry v p : Nat) : Int)).toNat
        = nextEntry v p - idxEntry v p := Int.toNat_natCast _
    have hbound : 2 ^ 27 + idxEntry v p + (nextEntry v p - idxEntry v p) ≤ v.len := by
      omega
    have hread : v.readAt (((2 ^ 27 + idxEntry v p : Nat) : Int))
        (nextEntry v p - idxEntry v p)
        = some ((List.range (nextEntry v p - idxEntry v p)).map
            (fun i => v.byteAt (2 ^ 27 + idxEntry v p + i))) := by
      rw [readAt_nat, if_pos hbound]
    simp only [scanLoop, hshort, hlookup]
    rw [if_neg (by omega :
      ¬(((nextEntry v p - idxEntry v p : Nat) : Int) < 0 ∨
        8192 < ((nextEntry v p - idxEntry v p : Nat) : Int)))]
    rw [hoff, hcount, hread]
    rw [hLm]
    rw [show (19 * bucketN v p + 18) / 19 = bucketN v p from by omega]
    by_cases hm0 : bucketN v p = 0
    · -- empty bucket: no record write, advance to the next prefix
      rw [hm0]
      have hrl : recLoop ((List.range (19 * 0)).map
          (fun i => v.byteAt (2 ^ 27 + idxEntry v p + i))) cb 0 0 hash acc
          = (hash, acc, .done) := rfl
      simp only [hrl]
      have hbne : rangeTagged v (p + 1) e ≠ [] := by
        intro hcon
        apply hne
        rw [rangeTagged_step v p e hpe, taggedBucket_nil v p hm0, hcon]
        rfl
      have hpne : ¬p = e := by
        intro hcon
        subst hcon
        apply hne
        rw [rangeTagged_last, taggedBucket_nil v p hm0]
      rw [if_neg hpne]
      have hc1 : (p + 1) % 2 ^ 32 = p + 1 := Nat.mod_eq_of_lt (by omega)
      have hc2 : (p + 1) % 2 ^ 24 = p + 1 := Nat.mod_eq_of_lt (by omega)
      simp only [hc1, hc2]
      rw [if_neg (by omega : ¬2 ^ 24 < p + 1)]
      have hwlen : (writeBytes hash 0 (natToBytes3 (p + 1))).length
          = hash.length := by
        rw [writeBytes_length]
        rw [natToBytes3_length]
        omega
      exact ih (p + 1) (writeBytes hash 0 (natToBytes3 (p + 1))) acc
        (by omega) (by omega) (fun r hr1 hr2 => hok r (by omega) hr2)
        (by omega) (by omega) hbne
    · -- non-empty bucket: hash[3:20] reslicing panics at the first record
      obtain ⟨m', hm'⟩ : ∃ m', bucketN v p = m' + 1 :=
        ⟨bucketN v p - 1, by omega⟩
      rw [hm']
      have hrl : recLoop ((List.range (19 * (m' + 1))).map
          (fun i => v.byteAt (2 ^ 27 + idxEntry v p + i))) cb (m' + 1) 0 hash acc
          = (hash, acc, .panicked) := by
        simp only [recLoop]
        rw [if_pos hlt20]
      simp only [hrl]

lemma scan_shortHash (v : ReaderAt) (s e : Nat) (hash0 : List Nat)
    (cb : List Nat → Nat → Bool) (hse : s ≤ e) (he : e < 2 ^ 24)
    (hlen : 2 ^ 27 ≤ v.len) (hbig : v.len < 2 ^ 63)
    (hok : ∀ p, s ≤ p → p ≤ e → bucketOk v p) (hlt : hash0.length < 20)
    (hne : rangeTagged v s e ≠ []) :
    scan v (natToBytes3 s) (natToBytes3 e) hash0 cb =
      some ⟨[], .panicked⟩ := by
  have hcmp : ¬bytesCompare (natToBytes3 s) (natToBytes3 e) = Ordering.gt := by
    rw [natToBytes3_compare s e (by omega) he]
    exact compare_ne_gt s e hse
  by_cases h3 : hash0.length < 3
  · simp only [scan, byteNorm_natToBytes3]
    rw [if_neg hcmp, if_pos h3]
  · have hsVal : beBytesToNat (0 :: natToBytes3 s) = s := by
      rw [beBytesToNat_zero_cons, beBytes_natToBytes3 s (by omega)]
    have heVal : beBytesToNat (0 :: natToBytes3 e) = e := by
      rw [beBytesToNat_zero_cons, beBytes_natToBytes3 e he]
    have hwlen : (writeBytes (byteNorm hash0) 0 (natToBytes3 s)).length
        = hash0.length := by
      rw [writeBytes_length]
      · rw [byteNorm_length]
      · rw [natToBytes3_length, byteNorm_length]
        omega
    simp only [scan, byteNorm_natToBytes3]
    rw [if_neg hcmp, if_neg h3, hsVal, heVal]
    rw [scanLoop_shortHash v e cb he hlen hbig (2 ^ 24 + 2) s
      (writeBytes (byteNorm hash0) 0 (natToBytes3 s)) [] hse (by omega) hok
      (by omega) (by omega) hne]

/-- C10: every record delivery writes the bucket's own 3-byte prefix into
`hash[0:3]` and the record's 17-byte suffix into `hash[3:20]` before the
callback runs: with a 20-byte slice the scan succeeds and every visit is
exactly `prefix || suffix` for some record of an in-range bucket (first
and second conjuncts).  With a slice shorter than 20 bytes and at least
one record in range, `Scan` panics on the `hash[3:20]` (or, below 3
bytes, the initial `hash[0:3]`) slice expression instead of returning an
error, before any callback runs (third conjunct).  Callers must therefore
supply a slice of at least 20 bytes. -/
theorem scan_hash_slice (v : ReaderAt) (s e : Nat)
    (hash0 hashS : List Nat) (cb : List Nat → Nat → Bool) (hse : s ≤ e)
    (he : e < 2 ^ 24) (hlen : 2 ^ 27 ≤ v.len) (hbig : v.len < 2 ^ 63)
    (hok : ∀ p, s ≤ p → p ≤ e → bucketOk v p) (hh0 : hash0.length = 20)
    (hhS : hashS.length < 20) (hne : rangeTagged v s e ≠ []) :
    scan v (natToBytes3 s) (natToBytes3 e) hash0 cb =
        some ⟨(takeToStop cb (rangeTagged v s e)).1, .okDone⟩ ∧
      (∀ x ∈ rangeTagged v s e, ∃ p r, s ≤ p ∧ p ≤ e ∧
        r ∈ bucketRecs v (idxEntry v p) (bucketN v p) ∧
        x = (natToBytes3 p ++ r.1, r.2)) ∧
      scan v (natToBytes3 s) (natToBytes3 e) hashS cb =
        some ⟨[], .panicked⟩ := by
  refine ⟨scan_ok v s e hash0 cb hse he hlen hbig hok hh0, ?_,
    scan_shortHash v s e hashS cb hse he hlen hbig hok hhS hne⟩
  intro x hx
  obtain ⟨q, hq1, hq2, hxq⟩ := mem_rangeTaggedN v s (e + 1 - s) x hx
  obtain ⟨r, hr, hxr⟩ := List.mem_map.mp hxq
  exact ⟨q, r, hq1, by omega, hr, hxr.symm⟩

/-- Witness for C10: scanning `db2` over `[000000, 000000]` with a
20-byte hash slice versus a 5-byte one. -/
theorem scan_hash_slice_witness :
    scan db2 (natToBytes3 0) (natToBytes3 0) hashZero (fun _ _ => false) =
        some ⟨(takeToStop (fun _ _ => false) (rangeTagged db2 0 0)).1,
          .okDone⟩ ∧
      (∀ x ∈ rangeTagged db2 0 0, ∃ p r, 0 ≤ p ∧ p ≤ 0 ∧
        r ∈ bucketRecs db2 (idxEntry db2 p) (bucketN db2 p) ∧
        x = (natToBytes3 p ++ r.1, r.2)) ∧
      scan db2 (natToBytes3 0) (natToBytes3 0) [0, 0, 0, 0, 0]
        (fun _ _ => false) = some ⟨[], .panicked⟩ :=
  scan_hash_slice db2 0 0 hashZero [0, 0, 0, 0, 0] (fun _ _ => false)
    (by decide) (by decide) (by decide) (by decide)
    (fun p _ hp => by interval_cases p; decide) (by decide) (by decide)
    (by decide)
